import Mathlib
/-!
Verification of the libcose COSE Sign module against its design
specification.  The repository sources provide `include/cose/sign.h`
(struct layout and the inline header/content-type setters) and the test
`tests/suit.c`; the translation units `sign.c`, `hdr.c`, `key.c` and the
configuration header `cose_defines.h` are not in the sources, so those
operations are modelled from the specification where noted.  Machine
integers are modelled as `Nat`/`Int`; bytes are `Nat`s; C arrays with an
occupancy count are modelled as Lean lists.
-/
namespace LibCose

set_option maxRecDepth 100000

/-- CBOR data items, restricted to the kinds used by the COSE Sign wire
format (RFC 8152 §4): unsigned and negative integers, byte and text
strings, arrays, maps, tags and null.  `nint n` denotes the integer
`-1 - n`. -/
inductive Cbor : Type where
  | uint (n : Nat)
  | nint (n : Nat)
  | bstr (b : List Nat)
  | tstr (b : List Nat)
  | arr (xs : List Cbor)
  | map (xs : List (Cbor × Cbor))
  | tag (t : Nat) (x : Cbor)
  | null
  deriving Repr

/-- Initial bytes of a CBOR item: major type `maj` with argument `n`,
using the shortest-form additional-information encoding (immediate,
1, 2, 4 or 8 following bytes). -/
def encHead (maj n : Nat) : List Nat :=
  if n < 24 then [32 * maj + n]
  else if n < 256 then [32 * maj + 24, n]
  else if n < 65536 then [32 * maj + 25, n / 256, n % 256]
  else if n < 4294967296 then
    [32 * maj + 26, n / 16777216, n / 65536 % 256, n / 256 % 256, n % 256]
  else
    [32 * maj + 27, n / 72057594037927936, n / 281474976710656 % 256,
      n / 1099511627776 % 256, n / 4294967296 % 256,
      n / 16777216 % 256, n / 65536 % 256, n / 256 % 256, n % 256]

/-- Read the initial bytes of a CBOR item, returning the major type, the
argument and the remaining input. -/
def parseHead : List Nat → Option (Nat × Nat × List Nat)
  | [] => none
  | b :: bs =>
    let maj := b / 32
    let ai := b % 32
    if ai < 24 then some (maj, ai, bs)
    else if ai = 24 then
      match bs with
      | b0 :: r => some (maj, b0, r)
      | [] => none
    else if ai = 25 then
      match bs with
      | b1 :: b0 :: r => some (maj, 256 * b1 + b0, r)
      | _ => none
    else if ai = 26 then
      match bs with
      | b3 :: b2 :: b1 :: b0 :: r =>
        some (maj, 16777216 * b3 + 65536 * b2 + 256 * b1 + b0, r)
      | _ => none
    else if ai = 27 then
      match bs with
      | b7 :: b6 :: b5 :: b4 :: b3 :: b2 :: b1 :: b0 :: r =>
        some (maj, 72057594037927936 * b7 + 281474976710656 * b6 +
          1099511627776 * b5 + 4294967296 * b4 +
          16777216 * b3 + 65536 * b2 + 256 * b1 + b0, r)
      | _ => none
    else none

mutual

/-- Serialize a CBOR item to bytes. -/
def encItem : Cbor → List Nat
  | .uint n => encHead 0 n
  | .nint n => encHead 1 n
  | .bstr b => encHead 2 b.length ++ b
  | .tstr b => encHead 3 b.length ++ b
  | .arr xs => encHead 4 xs.length ++ encList xs
  | .map xs => encHead 5 xs.length ++ encPairs xs
  | .tag t x => encHead 6 t ++ encItem x
  | .null => [246]

/-- Serialize a list of CBOR items back to back. -/
def encList : List Cbor → List Nat
  | [] => []
  | x :: xs => encItem x ++ encList xs

/-- Serialize a list of CBOR key/value pairs back to back. -/
def encPairs : List (Cbor × Cbor) → List Nat
  | [] => []
  | (k, v) :: xs => encItem k ++ encItem v ++ encPairs xs

end

/-- Parse `n` consecutive CBOR items with the given single-item
parse function. -/
def parseMany (p : List Nat → Option (Cbor × List Nat)) :
    Nat → List Nat → Option (List Cbor × List Nat)
  | 0, bs => some ([], bs)
  | n + 1, bs =>
    match p bs with
    | some (x, r) =>
      match parseMany p n r with
      | some (xs, r2) => some (x :: xs, r2)
      | none => none
    | none => none

/-- Parse `n` consecutive CBOR key/value pairs with the given
single-item parse function. -/
def parsePairsMany (p : List Nat → Option (Cbor × List Nat)) :
    Nat → List Nat → Option (List (Cbor × Cbor) × List Nat)
  | 0, bs => some ([], bs)
  | n + 1, bs =>
    match p bs with
    | some (k, r) =>
      match p r with
      | some (v, r1) =>
        match parsePairsMany p n r1 with
        | some (xs, r2) => some ((k, v) :: xs, r2)
        | none => none
      | none => none
    | none => none

/-- One level of CBOR item parsing: reads the head and dispatches on
the major type, parsing nested items with the given parse function. -/
def parseStep (p : List Nat → Option (Cbor × List Nat)) (bs : List Nat) :
    Option (Cbor × List Nat) :=
  match parseHead bs with
  | none => none
  | some (maj, n, r) =>
    if maj = 0 then some (.uint n, r)
    else if maj = 1 then some (.nint n, r)
    else if maj = 2 then
      if n ≤ r.length then some (.bstr (r.take n), r.drop n) else none
    else if maj = 3 then
      if n ≤ r.length then some (.tstr (r.take n), r.drop n) else none
    else if maj = 4 then
      match parseMany p n r with
      | some (xs, r2) => some (.arr xs, r2)
      | none => none
    else if maj = 5 then
      match parsePairsMany p n r with
      | some (xs, r2) => some (.map xs, r2)
      | none => none
    else if maj = 6 then
      match p r with
      | some (x, r2) => some (.tag n x, r2)
      | none => none
    else
      if n = 22 then some (.null, r) else none

/-- Parse one CBOR item; `fuel` bounds the nesting depth. -/
def parseItem : Nat → List Nat → Option (Cbor × List Nat)
  | 0 => fun _ => none
  | fuel + 1 => parseStep (parseItem fuel)

/-- 2^64, the largest argument representable in a CBOR item head. -/
def U64 : Nat := 18446744073709551616

mutual

/-- A CBOR item is well formed when every head argument (integer value,
string length, container size, tag number) fits in 64 bits. -/
def wfItem : Cbor → Bool
  | .uint n => decide (n < U64)
  | .nint n => decide (n < U64)
  | .bstr b => decide (b.length < U64)
  | .tstr b => decide (b.length < U64)
  | .arr xs => decide (xs.length < U64) && wfList xs
  | .map xs => decide (xs.length < U64) && wfPairs xs
  | .tag t x => decide (t < U64) && wfItem x
  | .null => true

/-- Well-formedness of a list of items. -/
def wfList : List Cbor → Bool
  | [] => true
  | x :: xs => wfItem x && wfList xs

/-- Well-formedness of a list of pairs. -/
def wfPairs : List (Cbor × Cbor) → Bool
  | [] => true
  | (k, v) :: xs => wfItem k && wfItem v && wfPairs xs

end

mutual

/-- Nesting depth of a CBOR item; bounds the parser fuel it needs. -/
def depth : Cbor → Nat
  | .uint _ => 1
  | .nint _ => 1
  | .bstr _ => 1
  | .tstr _ => 1
  | .arr xs => 1 + depthList xs
  | .map xs => 1 + depthPairs xs
  | .tag _ x => 1 + depth x
  | .null => 1

/-- Maximal depth over a list of items. -/
def depthList : List Cbor → Nat
  | [] => 0
  | x :: xs => max (depth x) (depthList xs)

/-- Maximal depth over a list of pairs. -/
def depthPairs : List (Cbor × Cbor) → Nat
  | [] => 0
  | (k, v) :: xs => max (max (depth k) (depth v)) (depthPairs xs)

end

/-- Error codes from `cose_defines.h` (not in the sources).
Modelled from the spec: §7 lists the error kinds returned by the API. -/
inductive CoseErr : Type where
  | invalidParam
  | capacityExceeded
  | bufferTooSmall
  | parseError
  | unsupportedAlgo
  | cryptoError
  | verificationFailed
  deriving Repr, DecidableEq

/-- Header values (`cose_hdr_t` value union; `hdr.h` is not in the
sources). Modelled from the spec: §3 Header Entry, `type: one of {int,
string, byte-slice, embedded-CBOR-item}`. -/
inductive HVal : Type where
  | int (i : Int)
  | str (b : List Nat)
  | data (b : List Nat)
  | cbor (c : Cbor)
  deriving Repr

/-- A header entry (`cose_hdr_t`; `hdr.h` is not in the sources).
Modelled from the spec: §3 Header Entry `{ key: int32, flags:
{protected}, type, value }`; `prot` is the `COSE_HDR_FLAGS_PROTECTED` bit
of the flags byte. -/
structure HdrEntry : Type where
  key : Int
  prot : Bool
  val : HVal
  deriving Repr

/-- The compile-time capacities from `cose_defines.h` (not in the
sources; they are configurable macros). Modelled from the spec: the
fixed capacities `COSE_SIGNATURES_MAX`, `COSE_SIGN_HDR_MAX` and
`COSE_SIG_HDR_MAX`. -/
structure Caps : Type where
  sigMax : Nat
  signHdrMax : Nat
  sigHdrMax : Nat

/-- Bucket insertion core (`cose_hdr_add_hdr_value` and friends share it;
`hdr.c` is not in the sources). Modelled from the spec: §4.1 `add` appends
the entry in insertion order and "fails with CapacityExceeded when the
bucket is full"; duplicate keys are not rejected.  `cap` is the capacity
bound the caller passes for the backing array. -/
def cose_hdr_add (bucket : List HdrEntry) (cap : Nat) (e : HdrEntry) :
    Except CoseErr (List HdrEntry) :=
  if bucket.length < cap then .ok (bucket ++ [e]) else .error .capacityExceeded

/-- `cose_hdr_add_hdr_value` (`hdr.c` not in the sources); modelled from
the spec as the int-valued bucket add. -/
def cose_hdr_add_hdr_value (bucket : List HdrEntry) (cap : Nat) (key : Int)
    (prot : Bool) (value : Int) : Except CoseErr (List HdrEntry) :=
  cose_hdr_add bucket cap ⟨key, prot, .int value⟩

/-- `cose_hdr_add_hdr_string` (`hdr.c` not in the sources); modelled from
the spec as the string-valued bucket add. -/
def cose_hdr_add_hdr_string (bucket : List HdrEntry) (cap : Nat) (key : Int)
    (prot : Bool) (s : List Nat) : Except CoseErr (List HdrEntry) :=
  cose_hdr_add bucket cap ⟨key, prot, .str s⟩

/-- `cose_hdr_add_hdr_data` (`hdr.c` not in the sources); modelled from
the spec as the byte-string-valued bucket add. -/
def cose_hdr_add_hdr_data (bucket : List HdrEntry) (cap : Nat) (key : Int)
    (prot : Bool) (d : List Nat) : Except CoseErr (List HdrEntry) :=
  cose_hdr_add bucket cap ⟨key, prot, .data d⟩

/-- `cose_hdr_add_hdr_cbor` (`hdr.c` not in the sources); modelled from
the spec as the embedded-CBOR-valued bucket add. -/
def cose_hdr_add_hdr_cbor (bucket : List HdrEntry) (cap : Nat) (key : Int)
    (prot : Bool) (c : Cbor) : Except CoseErr (List HdrEntry) :=
  cose_hdr_add bucket cap ⟨key, prot, .cbor c⟩

/-- `cose_hdr_get` (`hdr.c` not in the sources). Modelled from the spec:
§3 "Lookup is first-match ordered scan" over the occupied entries. -/
def cose_hdr_get (bucket : List HdrEntry) (key : Int) : Option HdrEntry :=
  bucket.find? (fun e => e.key == key)

/-- `cose_key_t` (`key.h` is not in the sources). Modelled from the spec:
§3 Key Object: algorithm id, curve id and three key-material byte
views. -/
structure KeyObj : Type where
  crv : Int
  alg : Int
  x : List Nat
  d : List Nat
  k : List Nat
  deriving Repr

/-- `cose_signature_t` from `include/cose/sign.h`: protected-header byte
view, signature byte view, bound signer key, and the header bucket
`hdrs[COSE_SIG_HDR_MAX]` (modelled as the list of occupied entries; the
declared capacity of the backing array is `Caps.sigHdrMax`). -/
structure SigSlot : Type where
  hdrProt : List Nat
  signature : List Nat
  signer : Option KeyObj
  hdrs : List HdrEntry
  deriving Repr

/-- An empty signature slot (all-zero `cose_signature_t`). -/
def emptySlot : SigSlot :=
  ⟨[], [], none, []⟩

/-- `cose_sign_t` from `include/cose/sign.h`.  `flags` is modelled by its
two relevant bits (`COSE_FLAGS_SIGN1`, `COSE_FLAGS_UNTAGGED`); `numSigs`
counts the populated prefix of `sigs`, whose declared length is
`Caps.sigMax`; `hdrs` is the body bucket `hdrs[COSE_SIGN_HDR_MAX]`. -/
structure SignObj : Type where
  payload : List Nat
  extAad : List Nat
  hdrProtSer : List Nat
  sign1 : Bool
  untagged : Bool
  numSigs : Nat
  hdrs : List HdrEntry
  sigs : List SigSlot
  deriving Repr

/-- `cose_sign_init` (`sign.c` not in the sources). Modelled from the
spec: §4.4 "init(sign, flags): zeroes state; sets Sign1-variant flag
from flags". -/
def cose_sign_init (caps : Caps) (sign1 untagged : Bool) : SignObj :=
  ⟨[], [], [], sign1, untagged, 0, [], List.replicate caps.sigMax emptySlot⟩

/-- `cose_sign_set_payload` from `include/cose/sign.h`: stores the
payload view. -/
def cose_sign_set_payload (sign : SignObj) (p : List Nat) : SignObj :=
  {sign with payload := p}

/-- `cose_sign_set_external_aad`: stores the external AAD view. -/
def cose_sign_set_external_aad (sign : SignObj) (a : List Nat) : SignObj :=
  {sign with extAad := a}

/-- `cose_sign_add_signer` (`sign.c` not in the sources). Modelled from
the spec: §4.4 "appends a Signature Sub-Object bound to key; fails with
CapacityExceeded once num_sigs == MAX_SIGNATURES, or InvalidParam in
Sign1 variant once one signer already exists. Returns the assigned
index."  The capacity test is made first, following the spec's sentence
order. -/
def cose_sign_add_signer (caps : Caps) (sign : SignObj) (key : KeyObj) :
    Except CoseErr Nat × SignObj :=
  if sign.numSigs = caps.sigMax then (.error .capacityExceeded, sign)
  else if sign.sign1 && sign.numSigs == 1 then (.error .invalidParam, sign)
  else
    let i := sign.numSigs
    let slot := sign.sigs.getD i emptySlot
    let sigs2 := sign.sigs.set i {slot with signer := some key}
    (.ok i, {sign with numSigs := i + 1, sigs := sigs2})

/-- `cose_sign_add_hdr_value` from `include/cose/sign.h`: bucket add on
the body bucket with capacity bound `COSE_SIGN_HDR_MAX`. -/
def cose_sign_add_hdr_value (caps : Caps) (sign : SignObj) (key : Int)
    (prot : Bool) (value : Int) : Except CoseErr Unit × SignObj :=
  match cose_hdr_add_hdr_value sign.hdrs caps.signHdrMax key prot value with
  | .ok b => (.ok (), {sign with hdrs := b})
  | .error e => (.error e, sign)

/-- `cose_sign_add_hdr_string` from `include/cose/sign.h`. -/
def cose_sign_add_hdr_string (caps : Caps) (sign : SignObj) (key : Int)
    (prot : Bool) (s : List Nat) : Except CoseErr Unit × SignObj :=
  match cose_hdr_add_hdr_string sign.hdrs caps.signHdrMax key prot s with
  | .ok b => (.ok (), {sign with hdrs := b})
  | .error e => (.error e, sign)

/-- `cose_sign_add_hdr_data` from `include/cose/sign.h`. -/
def cose_sign_add_hdr_data (caps : Caps) (sign : SignObj) (key : Int)
    (prot : Bool) (d : List Nat) : Except CoseErr Unit × SignObj :=
  match cose_hdr_add_hdr_data sign.hdrs caps.signHdrMax key prot d with
  | .ok b => (.ok (), {sign with hdrs := b})
  | .error e => (.error e, sign)

/-- `cose_sign_add_hdr_cbor` from `include/cose/sign.h`. -/
def cose_sign_add_hdr_cbor (caps : Caps) (sign : SignObj) (key : Int)
    (prot : Bool) (c : Cbor) : Except CoseErr Unit × SignObj :=
  match cose_hdr_add_hdr_cbor sign.hdrs caps.signHdrMax key prot c with
  | .ok b => (.ok (), {sign with hdrs := b})
  | .error e => (.error e, sign)

/-- `cose_sign_sig_add_hdr_value` from `include/cose/sign.h`: rejects
`idx >= COSE_SIGNATURES_MAX` with `COSE_ERR_INVALID_PARAM`, then adds to
`sign->sigs[idx].hdrs` passing `COSE_SIGN_HDR_MAX` as the capacity
bound, exactly as the source line does (the declared capacity of that
array is `COSE_SIG_HDR_MAX`). -/
def cose_sign_sig_add_hdr_value (caps : Caps) (sign : SignObj) (idx : Nat)
    (key : Int) (prot : Bool) (value : Int) : Except CoseErr Unit × SignObj :=
  if caps.sigMax ≤ idx then (.error .invalidParam, sign)
  else
    let slot := sign.sigs.getD idx emptySlot
    match cose_hdr_add_hdr_value slot.hdrs caps.signHdrMax key prot value with
    | .ok b => (.ok (), {sign with sigs := sign.sigs.set idx {slot with hdrs := b}})
    | .error e => (.error e, sign)

/-- `cose_sign_sig_add_hdr_string` from `include/cose/sign.h` (same
index check and the same `COSE_SIGN_HDR_MAX` capacity bound). -/
def cose_sign_sig_add_hdr_string (caps : Caps) (sign : SignObj) (idx : Nat)
    (key : Int) (prot : Bool) (s : List Nat) : Except CoseErr Unit × SignObj :=
  if caps.sigMax ≤ idx then (.error .invalidParam, sign)
  else
    let slot := sign.sigs.getD idx emptySlot
    match cose_hdr_add_hdr_string slot.hdrs caps.signHdrMax key prot s with
    | .ok b => (.ok (), {sign with sigs := sign.sigs.set idx {slot with hdrs := b}})
    | .error e => (.error e, sign)

/-- `cose_sign_sig_add_hdr_data` from `include/cose/sign.h` (same index
check and the same `COSE_SIGN_HDR_MAX` capacity bound). -/
def cose_sign_sig_add_hdr_data (caps : Caps) (sign : SignObj) (idx : Nat)
    (key : Int) (prot : Bool) (d : List Nat) : Except CoseErr Unit × SignObj :=
  if caps.sigMax ≤ idx then (.error .invalidParam, sign)
  else
    let slot := sign.sigs.getD idx emptySlot
    match cose_hdr_add_hdr_data slot.hdrs caps.signHdrMax key prot d with
    | .ok b => (.ok (), {sign with sigs := sign.sigs.set idx {slot with hdrs := b}})
    | .error e => (.error e, sign)

/-- `cose_sign_sig_add_hdr_cbor` from `include/cose/sign.h` (same index
check and the same `COSE_SIGN_HDR_MAX` capacity bound). -/
def cose_sign_sig_add_hdr_cbor (caps : Caps) (sign : SignObj) (idx : Nat)
    (key : Int) (prot : Bool) (c : Cbor) : Except CoseErr Unit × SignObj :=
  if caps.sigMax ≤ idx then (.error .invalidParam, sign)
  else
    let slot := sign.sigs.getD idx emptySlot
    match cose_hdr_add_hdr_cbor slot.hdrs caps.signHdrMax key prot c with
    | .ok b => (.ok (), {sign with sigs := sign.sigs.set idx {slot with hdrs := b}})
    | .error e => (.error e, sign)

/-- Reserved header keys (RFC 8152 §3.1): content type and kid. -/
def COSE_HDR_CONTENT_TYPE : Int := 3

/-- Reserved header key of the key identifier. -/
def COSE_HDR_KID : Int := 4

/-- The EdDSA algorithm identifier (RFC 8152 §8.2). -/
def COSE_ALGO_EDDSA : Int := -8

/-- The Ed25519 curve identifier (RFC 8152 §13.1). -/
def COSE_EC_CURVE_ED25519 : Int := 6

/-- Replace the first entry with the given key, in place. -/
def updateFirst (bucket : List HdrEntry) (key : Int) (f : HdrEntry → HdrEntry) :
    List HdrEntry :=
  match bucket with
  | [] => []
  | e :: es => if e.key == key then f e :: es else e :: updateFirst es key f

/-- `cose_sign_set_ct` from `include/cose/sign.h`: looks the content-type
header up in the body bucket; if absent, adds a protected int header
with the value; otherwise updates the found entry in place (value
replaced, protected flag or-ed in, type forced to int). -/
def cose_sign_set_ct (caps : Caps) (sign : SignObj) (value : Int) :
    Except CoseErr Unit × SignObj :=
  match cose_hdr_get sign.hdrs COSE_HDR_CONTENT_TYPE with
  | none => cose_sign_add_hdr_value caps sign COSE_HDR_CONTENT_TYPE true value
  | some _ =>
    let b := updateFirst sign.hdrs COSE_HDR_CONTENT_TYPE (fun e => ⟨e.key, true, .int value⟩)
    (.ok (), {sign with hdrs := b})

/-- `cose_sign_get_header` (`sign.c` not in the sources); modelled from
the spec: pure first-match lookup over the body bucket. -/
def cose_sign_get_header (sign : SignObj) (key : Int) : Option HdrEntry :=
  cose_hdr_get sign.hdrs key

/-- `cose_sign_get_protected` (`sign.c` not in the sources); modelled
from the spec: first-match lookup among the protected body entries. -/
def cose_sign_get_protected (sign : SignObj) (key : Int) : Option HdrEntry :=
  sign.hdrs.find? (fun e => e.prot && e.key == key)

/-- `cose_sign_sig_get_header` (`sign.c` not in the sources); modelled
from the spec: first-match lookup over signer `idx`'s bucket. -/
def cose_sign_sig_get_header (sign : SignObj) (idx : Nat) (key : Int) :
    Option HdrEntry :=
  cose_hdr_get (sign.sigs.getD idx emptySlot).hdrs key

/-- `cose_sign_get_kid` (`sign.c` not in the sources). Modelled from the
spec: §4.4 "looks up the kid header (protected or unprotected) for
signer idx; returns its byte length or 0 if absent" — here the byte
string itself, `none` for absent. -/
def cose_sign_get_kid (sign : SignObj) (idx : Nat) : Option (List Nat) :=
  match cose_hdr_get (sign.sigs.getD idx emptySlot).hdrs COSE_HDR_KID with
  | some ⟨_, _, .data b⟩ => some b
  | _ => none

/-- A C `int32_t` header key or value as a CBOR integer item. -/
def intToCbor (i : Int) : Cbor :=
  if 0 ≤ i then .uint i.toNat else .nint (-(i + 1)).toNat

/-- A header value as the CBOR item it serializes to. -/
def hvalToCbor : HVal → Cbor
  | .int i => intToCbor i
  | .str b => .tstr b
  | .data b => .bstr b
  | .cbor c => c

/-- A header entry as the CBOR map pair it serializes to. -/
def entryPair (e : HdrEntry) : Cbor × Cbor :=
  (intToCbor e.key, hvalToCbor e.val)

/-- The protected entries of a bucket, in insertion order. -/
def protOf (es : List HdrEntry) : List HdrEntry :=
  es.filter (fun e => e.prot)

/-- The unprotected entries of a bucket, in insertion order. -/
def unprotOf (es : List HdrEntry) : List HdrEntry :=
  es.filter (fun e => !e.prot)

/-- `cose_hdr_serialize_protected` (`hdr.c` not in the sources).
Modelled from the spec: §4.1 "writes only protected entries as a CBOR
map, in insertion order". -/
def serProt (es : List HdrEntry) : List Nat :=
  encItem (.map ((protOf es).map entryPair))

/-- The sibling unprotected map of a bucket's wire position. -/
def unprotMap (es : List HdrEntry) : Cbor :=
  .map ((unprotOf es).map entryPair)

/-- Read an integer map key back from its CBOR item. -/
def cborKey : Cbor → Option Int
  | .uint n => some (n : Int)
  | .nint n => some (-1 - (n : Int))
  | _ => none

/-- Read a header value back from its CBOR item, classifying the header
type from the item's major type. -/
def cborToHVal : Cbor → HVal
  | .uint n => .int (n : Int)
  | .nint n => .int (-1 - (n : Int))
  | .tstr b => .str b
  | .bstr b => .data b
  | c => .cbor c

/-- Read one decoded map pair back into a header entry with the given
protection flag; fails on a non-integer key. -/
def pairEntry (prot : Bool) (p : Cbor × Cbor) : Option HdrEntry :=
  match cborKey p.1 with
  | some k => some ⟨k, prot, cborToHVal p.2⟩
  | none => none

/-- Read a decoded CBOR map back into bucket entries. -/
def parseBucketPairs (prot : Bool) : List (Cbor × Cbor) → Option (List HdrEntry)
  | [] => some []
  | p :: ps =>
    match pairEntry prot p, parseBucketPairs prot ps with
    | some e, some es => some (e :: es)
    | _, _ => none

/-- A value fits a C `int32_t`. -/
def int32ok (i : Int) : Bool :=
  decide (-2147483648 ≤ i ∧ i < 2147483648)

/-- Scalar CBOR items, the ones a decoded header would classify as int,
string or byte-string rather than as an embedded CBOR value. -/
def scalarItem : Cbor → Bool
  | .uint _ => true
  | .nint _ => true
  | .bstr _ => true
  | .tstr _ => true
  | _ => false

/-- Validity of a constructed header value: ints fit `int32_t`, byte and
text lengths are encodable, embedded CBOR values are well formed and not
scalar (a scalar would simply be an int/string/byte-string header). -/
def validVal : HVal → Bool
  | .int i => int32ok i
  | .str b => decide (b.length < U64)
  | .data b => decide (b.length < U64)
  | .cbor c => wfItem c && !scalarItem c

/-- Validity of a constructed header entry. -/
def validEntry (e : HdrEntry) : Bool :=
  int32ok e.key && validVal e.val

/-- Validity of a constructed bucket. -/
def validBucket (es : List HdrEntry) : Bool :=
  es.all validEntry

/-- The bytes of the string constant `SIG_TYPE_SIGNATURE` ("Signature")
from `include/cose/sign.h`. -/
def SIG_TYPE_SIGNATURE : List Nat := [83, 105, 103, 110, 97, 116, 117, 114, 101]

/-- The bytes of the string constant `SIG_TYPE_SIGNATURE1` ("Signature1")
from `include/cose/sign.h`. -/
def SIG_TYPE_SIGNATURE1 : List Nat := [83, 105, 103, 110, 97, 116, 117, 114, 101, 49]

/-- The to-be-signed structure (`sign.c` not in the sources). Modelled
from the spec: §4.3/§6, `[tstr context, bstr body_protected, bstr
sig_protected (Sign only), bstr external_aad, bstr/nil payload]`, the
context label selected by the variant; built from the retained raw
protected-header bytes, never re-derived from the logical values. -/
def sigStructItem (sign : SignObj) (sigProt : List Nat) : Cbor :=
  if sign.sign1 then
    .arr [.tstr SIG_TYPE_SIGNATURE1, .bstr sign.hdrProtSer,
      .bstr sign.extAad, .bstr sign.payload]
  else
    .arr [.tstr SIG_TYPE_SIGNATURE, .bstr sign.hdrProtSer, .bstr sigProt,
      .bstr sign.extAad, .bstr sign.payload]

/-- The to-be-signed bytes the Structure Builder writes into the scratch
buffer. -/
def sigStructBytes (sign : SignObj) (slot : SigSlot) : List Nat :=
  encItem (sigStructItem sign slot.hdrProt)

/-- The serialized body protected headers at encode time. Modelled from
the spec: §3 — the Sign1 variant "merges its one signature's protected
headers with the body's". -/
def bodyProtBytes (sign : SignObj) : List Nat :=
  if sign.sign1 then serProt (sign.hdrs ++ (sign.sigs.getD 0 emptySlot).hdrs)
  else serProt sign.hdrs

/-- One signer's wire triple `[bstr sig_protected, map sig_unprotected,
bstr signature]` (spec §6). -/
def sigTriple (slot : SigSlot) : Cbor :=
  .arr [.bstr slot.hdrProt, unprotMap slot.hdrs, .bstr slot.signature]

/-- The envelope array of a signed object (spec §6): Sign1 is the flat
four-element array with the merged buckets, Sign carries the array of
per-signer triples. -/
def envBody (s : SignObj) : Cbor :=
  if s.sign1 then
    Cbor.arr [.bstr s.hdrProtSer, unprotMap (s.hdrs ++ (s.sigs.getD 0 emptySlot).hdrs),
      .bstr s.payload, .bstr (s.sigs.getD 0 emptySlot).signature]
  else
    Cbor.arr [.bstr s.hdrProtSer, unprotMap s.hdrs, .bstr s.payload,
      .arr ((s.sigs.take s.numSigs).map sigTriple)]

/-- The envelope CBOR item: the body, tagged 18/98 unless the untagged
flag is set. -/
def envItem (s : SignObj) : Cbor :=
  if s.untagged then envBody s else .tag (if s.sign1 then 18 else 98) (envBody s)

/-- Sign each populated signer slot in order (`sign.c` not in the
sources). Modelled from the spec: §4.4 encode — per signer, serialize
the signer's protected headers, build that signer's to-be-signed bytes
and call the backend, storing the resulting signature bytes in the
Signature Sub-Object.  `backend` is the Crypto Dispatch sign call of the
external cryptographic boundary (§6). -/
def signSlots (backend : Int → KeyObj → List Nat → Option (List Nat))
    (s1 : SignObj) : List SigSlot → Except CoseErr (List SigSlot)
  | [] => .ok []
  | slot :: rest =>
    let sp := serProt slot.hdrs
    match slot.signer with
    | none => .error .invalidParam
    | some key =>
      match backend key.alg key (encItem (sigStructItem s1 sp)) with
      | none => .error .cryptoError
      | some sg =>
        match signSlots backend s1 rest with
        | .ok rs => .ok ({slot with hdrProt := sp, signature := sg} :: rs)
        | .error e => .error e

/-- The object with its serialized body protected headers captured,
the first encode stage. -/
def preSign (sign : SignObj) : SignObj :=
  {sign with hdrProtSer := bodyProtBytes sign}

/-- The object after its populated slots have been signed. -/
def postSign (sign : SignObj) (slots : List SigSlot) : SignObj :=
  {preSign sign with sigs := slots ++ (preSign sign).sigs.drop (preSign sign).numSigs}

/-- `cose_sign_encode` without the buffer bound (`sign.c` not in the
sources). Modelled from the spec: §4.4 encode — serialize the protected
headers, sign every attached signer, then serialize the full envelope;
returns the updated object and the envelope bytes. -/
def cose_sign_encode_core (backend : Int → KeyObj → List Nat → Option (List Nat))
    (sign : SignObj) : Except CoseErr (SignObj × List Nat) :=
  match signSlots backend (preSign sign) ((preSign sign).sigs.take (preSign sign).numSigs) with
  | .error e => .error e
  | .ok slots =>
    .ok (postSign sign slots, encItem (envItem (postSign sign slots)))

/-- The largest element of a list of sizes. -/
def listMax : List Nat → Nat
  | [] => 0
  | n :: ns => max n (listMax ns)

/-- The minimum buffer size an encode call needs: the buffer is reused
as scratch for each signer's to-be-signed structure and then holds the
envelope (spec §4.4). -/
def encodeRequired (s2 : SignObj) (bytes : List Nat) : Nat :=
  max (listMax ((s2.sigs.take s2.numSigs).map
    (fun slot => (encItem (sigStructItem s2 slot.hdrProt)).length))) bytes.length

/-- `cose_sign_encode` (`sign.c` not in the sources). Modelled from the
spec: §4.4 encode fails with BufferTooSmall if any stage would overflow
the caller buffer. -/
def cose_sign_encode (backend : Int → KeyObj → List Nat → Option (List Nat))
    (sign : SignObj) (len : Nat) : Except CoseErr (SignObj × List Nat) :=
  match cose_sign_encode_core backend sign with
  | .error e => .error e
  | .ok (s2, bytes) =>
    if len < encodeRequired s2 bytes then .error .bufferTooSmall
    else .ok (s2, bytes)

/-- Strip the optional COSE Sign/Sign1 tag (18 or 98); any other tag is
malformed.  Returns the `COSE_FLAGS_UNTAGGED`-style flag. -/
def stripTag : Cbor → Option (Bool × Cbor)
  | .tag t x => if t = 18 || t = 98 then some (false, x) else none
  | x => some (true, x)

/-- The payload wire position: a byte string or nil (spec §6). -/
def payloadOf : Cbor → Option (List Nat)
  | .bstr p => some p
  | .null => some []
  | _ => none

/-- Decode the per-signer triples (`sign.c` not in the sources).
Modelled from the spec: §4.4 decode — each signer is a three-tuple
`[protected, unprotected, signature]`, the protected position a byte
string whose contents are a CBOR map, retained verbatim; wrong shapes
give ParseError, overfull fixed buckets CapacityExceeded. -/
def decodeSlots (caps : Caps) : List Cbor → Except CoseErr (List SigSlot)
  | [] => .ok []
  | .arr [.bstr pb, .map up, .bstr sg] :: rest =>
    match parseItem (pb.length + 1) pb with
    | some (.map pp, []) =>
      match parseBucketPairs true pp, parseBucketPairs false up with
      | some prot, some unprot =>
        let hdrs := prot ++ unprot
        if caps.sigHdrMax < hdrs.length then .error .capacityExceeded
        else
          match decodeSlots caps rest with
          | .ok slots => .ok (⟨pb, sg, none, hdrs⟩ :: slots)
          | .error e => .error e
      | _, _ => .error .parseError
    | _ => .error .parseError
  | _ => .error .parseError

/-- The byte-string view of a wire position, when it is one. -/
def asBstr : Cbor → Option (List Nat)
  | .bstr b => some b
  | _ => none

/-- The map view of a wire position, when it is one. -/
def asMap : Cbor → Option (List (Cbor × Cbor))
  | .map m => some m
  | _ => none

/-- Decode the fourth envelope position, which selects the variant: a
byte string is a Sign1 signature, an array holds the Sign signer
triples; anything else is malformed. -/
def decodeFourth (caps : Caps) (payload : List Nat) (untagged : Bool)
    (pb : List Nat) (bodyHdrs : List HdrEntry) : Cbor → Except CoseErr SignObj
  | .bstr sg =>
    if caps.signHdrMax < bodyHdrs.length then .error .capacityExceeded
    else if caps.sigMax < 1 then .error .capacityExceeded
    else .ok ⟨payload, [], pb, true, untagged, 1, bodyHdrs,
      ⟨pb, sg, none, []⟩ :: List.replicate (caps.sigMax - 1) emptySlot⟩
  | .arr sigItems =>
    if caps.signHdrMax < bodyHdrs.length then .error .capacityExceeded
    else if caps.sigMax < sigItems.length then .error .capacityExceeded
    else
      match decodeSlots caps sigItems with
      | .ok slots =>
        .ok ⟨payload, [], pb, false, untagged, sigItems.length, bodyHdrs,
          slots ++ List.replicate (caps.sigMax - sigItems.length) emptySlot⟩
      | .error e => .error e
  | _ => .error .parseError

/-- Decode the untagged envelope item (`sign.c` not in the sources).
Modelled from the spec: §4.4 decode — validates the outer arity of 4,
the element types, and the byte-string positions, rejecting wrong
shapes with ParseError; the body protected position must be a byte
string whose contents parse as a CBOR map, retained verbatim; populates
the object's views and buckets only when the whole parse succeeded. -/
def decodeInner (caps : Caps) (untagged : Bool) : Cbor → Except CoseErr SignObj
  | .arr [pb, up, pl, fourth] =>
    match asBstr pb, asMap up, payloadOf pl with
    | some pbb, some upp, some payload =>
      match parseItem (pbb.length + 1) pbb with
      | some (.map pp, []) =>
        match parseBucketPairs true pp, parseBucketPairs false upp with
        | some bodyProt, some bodyUnprot =>
          decodeFourth caps payload untagged pbb (bodyProt ++ bodyUnprot) fourth
        | _, _ => .error .parseError
      | _ => .error .parseError
    | _, _, _ => .error .parseError
  | _ => .error .parseError

/-- `cose_sign_decode` on fresh state (`sign.c` not in the sources).
Modelled from the spec: §4.4 decode accepts tagged or untagged input and
validates the CBOR shape; the whole input must be one CBOR item. -/
def cose_sign_decode_core (caps : Caps) (bs : List Nat) : Except CoseErr SignObj :=
  match parseItem (bs.length + 1) bs with
  | some (item, []) =>
    match stripTag item with
    | some (untagged, inner) => decodeInner caps untagged inner
    | none => .error .parseError
  | _ => .error .parseError

/-- `cose_sign_decode` as the C API: fills the caller's object in place
on success and leaves it untouched on failure ("On success, populates" —
spec §4.4). -/
def cose_sign_decode (caps : Caps) (sign : SignObj) (bs : List Nat) :
    Except CoseErr Unit × SignObj :=
  match cose_sign_decode_core caps bs with
  | .ok d => (.ok (), d)
  | .error e => (.error e, sign)

/-- `cose_sign_verify` (`sign.c` not in the sources). Modelled from the
spec: §4.4 verify — requires `idx < num_sigs` (InvalidParam otherwise),
rebuilds that signer's to-be-signed bytes into the scratch buffer
(BufferTooSmall when it does not fit), then calls the Crypto Dispatch
verify of the external backend with the key, the rebuilt structure and
the stored signature bytes (VerificationFailed when the check fails). -/
def cose_sign_verify (backendVer : Int → KeyObj → List Nat → List Nat → Bool)
    (sign : SignObj) (key : KeyObj) (idx : Nat) (len : Nat) :
    Except CoseErr Unit :=
  if sign.numSigs ≤ idx then .error .invalidParam
  else
    let slot := sign.sigs.getD idx emptySlot
    let tbs := sigStructBytes sign slot
    if len < tbs.length then .error .bufferTooSmall
    else if backendVer key.alg key tbs slot.signature then .ok ()
    else .error .verificationFailed

/-- `cose_sign_verify` with the C calling convention made explicit: the
pair of the result and the state of the sign object after the call (the
call reads the object and writes only scratch bytes, spec §4.4). -/
def cose_sign_verifyS (backendVer : Int → KeyObj → List Nat → List Nat → Bool)
    (sign : SignObj) (key : KeyObj) (idx : Nat) (len : Nat) :
    Except CoseErr Unit × SignObj :=
  (cose_sign_verify backendVer sign key idx len, sign)

/-- Validity of one constructed, to-be-encoded signer slot: a well
formed bucket within the declared `COSE_SIG_HDR_MAX` capacity, a bound
signer key, and encodable byte lengths. -/
def validSlot (caps : Caps) (slot : SigSlot) : Bool :=
  validBucket slot.hdrs && decide (slot.hdrs.length ≤ caps.sigHdrMax) &&
    slot.signer.isSome && decide ((serProt slot.hdrs).length < U64)

/-- Validity of a constructed Sign Object about to be encoded: the slot
array has its declared length, buckets are valid and within their
declared capacities, the payload is encodable, the populated slots are
valid, and the Sign1 variant has exactly one signer whose headers are
staged in the body bucket. -/
def validSign (caps : Caps) (s : SignObj) : Bool :=
  decide (s.sigs.length = caps.sigMax) &&
    validBucket s.hdrs && decide (s.hdrs.length ≤ caps.signHdrMax) &&
    decide (s.payload.length < U64) && decide ((serProt s.hdrs).length < U64) &&
    decide (s.numSigs ≤ caps.sigMax) && decide (caps.sigMax < U64) &&
    decide (caps.signHdrMax < U64) && decide (caps.sigHdrMax < U64) &&
    ((s.sigs.take s.numSigs).all (validSlot caps)) &&
    (if s.sign1 then s.numSigs == 1 && (s.sigs.getD 0 emptySlot).hdrs.isEmpty
      else true)

/-- Witness configuration: two signer slots, generous header room. -/
def witCaps : Caps := ⟨2, 4, 4⟩

/-- Witness key object. -/
def witKey : KeyObj := ⟨6, -8, [1], [], []⟩

/-- A full Sign object (both slots used). -/
def witFull : SignObj := ⟨[], [], [], false, false, 2, [], [emptySlot, emptySlot]⟩

/-- A Sign1 object that already has its one signer. -/
def witSign1 : SignObj := ⟨[], [], [], true, false, 1, [], [emptySlot, emptySlot]⟩

/-- An empty Sign object with room. -/
def witEmpty : SignObj := ⟨[], [], [], false, false, 0, [], [emptySlot, emptySlot]⟩

/-- A configuration with `COSE_SIG_HDR_MAX = 1 < 2 = COSE_SIGN_HDR_MAX`,
as the two macros are independent; the signature bucket below is full
(occupancy 1 equals its declared capacity). -/
def c4caps : Caps := ⟨1, 2, 1⟩

/-- A Sign object whose signer bucket already holds `COSE_SIG_HDR_MAX`
entries. -/
def c4sign : SignObj :=
  ⟨[], [], [], false, false, 1, [], [⟨[], [], none, [⟨1, true, .int 0⟩]⟩]⟩

/-- Witness object for the duplicate-key claim: key 7 present once. -/
def witDup : SignObj := ⟨[], [], [], false, false, 0, [⟨7, false, .int 1⟩], []⟩

/-- Content-type entries of the body bucket, in insertion order. -/
def ctEntries (s : SignObj) : List HdrEntry :=
  s.hdrs.filter (fun e => e.key == COSE_HDR_CONTENT_TYPE)

/-- Fold of successive `cose_sign_set_ct` calls. -/
def setCtFold (caps : Caps) (s : SignObj) (vs : List Int) : SignObj :=
  vs.foldl (fun t v => (cose_sign_set_ct caps t v).2) s

/-- An object whose body bucket already carries two content-type
entries (constructible with the raw header-add API, which does not
reject duplicates). -/
def c10sign : SignObj :=
  ⟨[], [], [], false, false, 0, [⟨3, true, .int 1⟩, ⟨3, true, .int 2⟩], []⟩

/-- A malformed input: an untagged outer array of arity 3. -/
def badArity : List Nat := [131, 1, 2, 3]

/-- A constant-output signing backend for the witness. -/
def witBk : Int → KeyObj → List Nat → Option (List Nat) := fun _ _ _ => some [1]

/-- An always-accepting verification backend for the witness. -/
def witBkv : Int → KeyObj → List Nat → List Nat → Bool := fun _ _ _ _ => true

/-- A one-signer object ready to encode. -/
def witEnc : SignObj :=
  ⟨[5], [], [], false, false, 1, [], [⟨[], [], some witKey, []⟩, emptySlot]⟩

/-- The encode result of the witness object. -/
def witPair : SignObj × List Nat :=
  match cose_sign_encode_core witBk witEnc with
  | .ok p => p
  | .error _ => (witEnc, [])

/-- The 311-byte tagged COSE Sign test vector `cose_suite` from `tests/suit.c`. -/
def suiteBytes : List Nat := [
  216, 98, 132, 68, 161, 3, 24, 42, 160, 88, 205, 138, 2, 164, 1, 110,
  84, 104, 105, 115, 32, 105, 115, 32, 97, 32, 116, 101, 115, 116, 2, 110,
  65, 32, 116, 101, 115, 116, 32, 112, 97, 121, 108, 111, 97, 100, 3, 111,
  65, 32, 115, 97, 109, 112, 108, 101, 32, 118, 101, 110, 100, 111, 114, 4,
  117, 65, 110, 32, 101, 120, 112, 101, 114, 105, 109, 101, 110, 116, 97, 108,
  32, 109, 111, 100, 101, 108, 80, 170, 188, 58, 237, 101, 225, 227, 32, 38,
  31, 188, 80, 37, 212, 153, 252, 26, 90, 187, 151, 247, 130, 130, 2, 80,
  20, 146, 175, 20, 37, 105, 94, 72, 191, 66, 155, 45, 81, 242, 171, 69,
  130, 1, 80, 250, 107, 74, 83, 213, 173, 95, 223, 190, 157, 230, 99, 228,
  212, 31, 254, 246, 246, 246, 246, 135, 129, 1, 16, 67, 102, 111, 111, 129,
  130, 110, 104, 116, 116, 112, 58, 47, 47, 102, 111, 111, 46, 99, 111, 109,
  1, 129, 1, 161, 1, 88, 32, 195, 18, 17, 209, 255, 136, 247, 122, 90,
  175, 101, 54, 119, 137, 91, 252, 167, 105, 240, 109, 161, 152, 168, 250, 113,
  21, 106, 166, 74, 205, 105, 93, 246, 129, 131, 88, 24, 162, 1, 39, 4,
  83, 83, 111, 109, 101, 116, 104, 105, 110, 103, 64, 115, 111, 109, 101, 119,
  104, 101, 114, 101, 160, 88, 64, 197, 95, 3, 73, 108, 177, 18, 41, 92,
  147, 15, 166, 65, 245, 219, 190, 99, 26, 6, 15, 218, 162, 214, 0, 208,
  109, 70, 102, 252, 69, 249, 16, 71, 72, 42, 151, 28, 150, 159, 9, 212,
  244, 1, 5, 119, 5, 11, 216, 219, 0, 20, 138, 125, 170, 145, 241, 180,
  187, 39, 45, 91, 111, 248, 12]

/-- The 205-byte payload carried by the test vector. -/
def suitePayload : List Nat := [
  138, 2, 164, 1, 110, 84, 104, 105, 115, 32, 105, 115, 32, 97, 32, 116,
  101, 115, 116, 2, 110, 65, 32, 116, 101, 115, 116, 32, 112, 97, 121, 108,
  111, 97, 100, 3, 111, 65, 32, 115, 97, 109, 112, 108, 101, 32, 118, 101,
  110, 100, 111, 114, 4, 117, 65, 110, 32, 101, 120, 112, 101, 114, 105, 109,
  101, 110, 116, 97, 108, 32, 109, 111, 100, 101, 108, 80, 170, 188, 58, 237,
  101, 225, 227, 32, 38, 31, 188, 80, 37, 212, 153, 252, 26, 90, 187, 151,
  247, 130, 130, 2, 80, 20, 146, 175, 20, 37, 105, 94, 72, 191, 66, 155,
  45, 81, 242, 171, 69, 130, 1, 80, 250, 107, 74, 83, 213, 173, 95, 223,
  190, 157, 230, 99, 228, 212, 31, 254, 246, 246, 246, 246, 135, 129, 1, 16,
  67, 102, 111, 111, 129, 130, 110, 104, 116, 116, 112, 58, 47, 47, 102, 111,
  111, 46, 99, 111, 109, 1, 129, 1, 161, 1, 88, 32, 195, 18, 17, 209,
  255, 136, 247, 122, 90, 175, 101, 54, 119, 137, 91, 252, 167, 105, 240, 109,
  161, 152, 168, 250, 113, 21, 106, 166, 74, 205, 105, 93, 246]

/-- The signer protected-header bytes of the test vector (alg EdDSA, kid). -/
def suiteSigProt : List Nat := [
  162, 1, 39, 4, 83, 83, 111, 109, 101, 116, 104, 105, 110, 103, 64, 115,
  111, 109, 101, 119, 104, 101, 114, 101]

/-- The 64-byte Ed25519 signature of the test vector. -/
def suiteSig : List Nat := [
  197, 95, 3, 73, 108, 177, 18, 41, 92, 147, 15, 166, 65, 245, 219, 190,
  99, 26, 6, 15, 218, 162, 214, 0, 208, 109, 70, 102, 252, 69, 249, 16,
  71, 72, 42, 151, 28, 150, 159, 9, 212, 244, 1, 5, 119, 5, 11, 216,
  219, 0, 20, 138, 125, 170, 145, 241, 180, 187, 39, 45, 91, 111, 248, 12]

/-- The known Ed25519 public key `pk` from `tests/suit.c`. -/
def suitePk : List Nat := [
  115, 193, 199, 89, 143, 134, 88, 58, 204, 132, 180, 189, 244, 179, 122, 121,
  192, 185, 245, 155, 211, 77, 47, 231, 231, 4, 113, 6, 162, 92, 227, 90]

/-- The ASCII bytes of "Something@somewhere", the expected kid. -/
def kidBytes : List Nat := [
  83, 111, 109, 101, 116, 104, 105, 110, 103, 64, 115, 111, 109, 101, 119, 104,
  101, 114, 101]

/-- The Key Object the test builds with `cose_key_set_keys(&signer,
COSE_EC_CURVE_ED25519, COSE_ALGO_EDDSA, pk, NULL, NULL)`. -/
def suiteKey : KeyObj := ⟨COSE_EC_CURVE_ED25519, COSE_ALGO_EDDSA, suitePk, [], []⟩

/-- The signer slot the decode of the test vector populates. -/
def suiteSlot0 : SigSlot :=
  ⟨suiteSigProt, suiteSig, none,
    [⟨1, true, .int (-8)⟩, ⟨COSE_HDR_KID, true, .data kidBytes⟩]⟩

/-- The Sign object the decode of the test vector populates, for a
configuration with `COSE_SIGNATURES_MAX = a + 1`. -/
def suiteDecoded (a : Nat) : SignObj :=
  ⟨suitePayload, [], [161, 3, 24, 42], false, false, 1,
    [⟨COSE_HDR_CONTENT_TYPE, true, .int 42⟩],
    suiteSlot0 :: List.replicate a emptySlot⟩

/-- The to-be-signed bytes `cose_sign_verify` rebuilds for signer 0 of
the decoded test vector (independent of the configuration). -/
def suiteTbs : List Nat :=
  encItem (sigStructItem (suiteDecoded 0) suiteSlot0.hdrProt)

/-- A backend for the witness that accepts exactly the matching public
key. -/
def bkvWit : Int → KeyObj → List Nat → List Nat → Bool :=
  fun _ k _ _ => k.x == suitePk

/-- An unrelated public key. -/
def otherKey : KeyObj := ⟨COSE_EC_CURVE_ED25519, COSE_ALGO_EDDSA, [0], [], []⟩

/-- The facts about a signed slot that make its wire triple decode back
to it. -/
def decSlotOk (caps : Caps) (slot : SigSlot) : Prop :=
  validBucket slot.hdrs = true ∧ slot.hdrs.length ≤ caps.sigHdrMax ∧
    slot.hdrs.length < U64 ∧ slot.hdrProt = serProt slot.hdrs ∧
    slot.signature.length < U64

/-- The slot a decoded wire triple populates. -/
def reslot (slot : SigSlot) : SigSlot :=
  ⟨slot.hdrProt, slot.signature, none, protOf slot.hdrs ++ unprotOf slot.hdrs⟩

/-- Encodability bounds of a signed slot. -/
def slotWf (slot : SigSlot) : Prop :=
  validBucket slot.hdrs = true ∧ slot.hdrs.length < U64 ∧
    slot.hdrProt.length < U64 ∧ slot.signature.length < U64

theorem parseHead_encHead (maj n : Nat) (hn : n < U64) (r : List Nat) :
    parseHead (encHead maj n ++ r) = some (maj, n, r) := by
  unfold U64 at hn
  unfold encHead
  split_ifs with h1 h2 h3 h4
  · have e1 : (32 * maj + n) / 32 = maj := by omega
    have e2 : (32 * maj + n) % 32 = n := by omega
    simp [parseHead, e1, e2, h1]
  · have e1 : (32 * maj + 24) / 32 = maj := by omega
    have e2 : (32 * maj + 24) % 32 = 24 := by omega
    simp [parseHead, e1, e2]
  · have e1 : (32 * maj + 25) / 32 = maj := by omega
    have e2 : (32 * maj + 25) % 32 = 25 := by omega
    have e3 : 256 * (n / 256) + n % 256 = n := by omega
    simp [parseHead, e1, e2, e3]
  · have e1 : (32 * maj + 26) / 32 = maj := by omega
    have e2 : (32 * maj + 26) % 32 = 26 := by omega
    have e3 : 16777216 * (n / 16777216) + 65536 * (n / 65536 % 256) +
        256 * (n / 256 % 256) + n % 256 = n := by omega
    simp [parseHead, e1, e2, e3]
  · have e1 : (32 * maj + 27) / 32 = maj := by omega
    have e2 : (32 * maj + 27) % 32 = 27 := by omega
    have e3 : 72057594037927936 * (n / 72057594037927936) +
        281474976710656 * (n / 281474976710656 % 256) +
        1099511627776 * (n / 1099511627776 % 256) +
        4294967296 * (n / 4294967296 % 256) +
        16777216 * (n / 16777216 % 256) + 65536 * (n / 65536 % 256) +
        256 * (n / 256 % 256) + n % 256 = n := by omega
    simp [parseHead, e1, e2, e3]

theorem parse_enc_fuel (fuel : Nat) :
    ∀ x : Cbor, wfItem x = true → depth x < fuel →
      ∀ r, parseItem fuel (encItem x ++ r) = some (x, r) := by
  induction fuel with
  | zero =>
    intro x _ hd
    exact absurd hd (Nat.not_lt_zero _)
  | succ fuel ih =>
    have ihList : ∀ xs : List Cbor, wfList xs = true → depthList xs < fuel →
        ∀ r, parseMany (parseItem fuel) xs.length (encList xs ++ r) = some (xs, r) := by
      intro xs
      induction xs with
      | nil => intro _ _ r; simp [parseMany, encList]
      | cons x xs ihx =>
        intro hwf hd r
        simp only [wfList, Bool.and_eq_true] at hwf
        simp only [depthList] at hd
        have h1 : parseItem fuel (encItem x ++ (encList xs ++ r)) =
            some (x, encList xs ++ r) :=
          ih x hwf.1 (lt_of_le_of_lt (le_max_left _ _) hd) _
        have h2 : parseMany (parseItem fuel) xs.length (encList xs ++ r) = some (xs, r) :=
          ihx hwf.2 (lt_of_le_of_lt (le_max_right _ _) hd) r
        simp [parseMany, encList, h1, h2]
    have ihPairs : ∀ xs : List (Cbor × Cbor), wfPairs xs = true → depthPairs xs < fuel →
        ∀ r, parsePairsMany (parseItem fuel) xs.length (encPairs xs ++ r) = some (xs, r) := by
      intro xs
      induction xs with
      | nil => intro _ _ r; simp [parsePairsMany, encPairs]
      | cons kv xs ihx =>
        obtain ⟨k, v⟩ := kv
        intro hwf hd r
        simp only [wfPairs, Bool.and_eq_true] at hwf
        simp only [depthPairs] at hd
        have h1 : parseItem fuel (encItem k ++ (encItem v ++ (encPairs xs ++ r))) =
            some (k, encItem v ++ (encPairs xs ++ r)) :=
          ih k hwf.1.1 (lt_of_le_of_lt (le_trans (le_max_left _ _) (le_max_left _ _)) hd) _
        have h2 : parseItem fuel (encItem v ++ (encPairs xs ++ r)) =
            some (v, encPairs xs ++ r) :=
          ih v hwf.1.2 (lt_of_le_of_lt (le_trans (le_max_right _ _) (le_max_left _ _)) hd) _
        have h3 : parsePairsMany (parseItem fuel) xs.length (encPairs xs ++ r) = some (xs, r) :=
          ihx hwf.2 (lt_of_le_of_lt (le_max_right _ _) hd) r
        simp [parsePairsMany, encPairs, h1, h2, h3]
    intro x hwf hd r
    cases x with
    | uint n =>
      simp only [wfItem, decide_eq_true_eq] at hwf
      simp [parseItem, parseStep, encItem, parseHead_encHead 0 n hwf r]
    | nint n =>
      simp only [wfItem, decide_eq_true_eq] at hwf
      simp [parseItem, parseStep, encItem, parseHead_encHead 1 n hwf r]
    | bstr b =>
      simp only [wfItem, decide_eq_true_eq] at hwf
      have hp : parseHead (encHead 2 b.length ++ (b ++ r)) = some (2, b.length, b ++ r) :=
        parseHead_encHead 2 b.length hwf (b ++ r)
      have hlen : b.length ≤ (b ++ r).length := by simp
      simp [parseItem, parseStep, encItem, hp, hlen, List.take_left, List.drop_left]
    | tstr b =>
      simp only [wfItem, decide_eq_true_eq] at hwf
      have hp : parseHead (encHead 3 b.length ++ (b ++ r)) = some (3, b.length, b ++ r) :=
        parseHead_encHead 3 b.length hwf (b ++ r)
      have hlen : b.length ≤ (b ++ r).length := by simp
      simp [parseItem, parseStep, encItem, hp, hlen, List.take_left, List.drop_left]
    | arr xs =>
      simp only [wfItem, Bool.and_eq_true, decide_eq_true_eq] at hwf
      simp only [depth] at hd
      have hp : parseHead (encHead 4 xs.length ++ (encList xs ++ r)) =
          some (4, xs.length, encList xs ++ r) :=
        parseHead_encHead 4 xs.length hwf.1 _
      have h2 : parseMany (parseItem fuel) xs.length (encList xs ++ r) = some (xs, r) :=
        ihList xs hwf.2 (by omega) r
      simp [parseItem, parseStep, encItem, hp, h2]
    | map xs =>
      simp only [wfItem, Bool.and_eq_true, decide_eq_true_eq] at hwf
      simp only [depth] at hd
      have hp : parseHead (encHead 5 xs.length ++ (encPairs xs ++ r)) =
          some (5, xs.length, encPairs xs ++ r) :=
        parseHead_encHead 5 xs.length hwf.1 _
      have h2 : parsePairsMany (parseItem fuel) xs.length (encPairs xs ++ r) = some (xs, r) :=
        ihPairs xs hwf.2 (by omega) r
      simp [parseItem, parseStep, encItem, hp, h2]
    | tag t x =>
      simp only [wfItem, Bool.and_eq_true, decide_eq_true_eq] at hwf
      simp only [depth] at hd
      have hp : parseHead (encHead 6 t ++ (encItem x ++ r)) = some (6, t, encItem x ++ r) :=
        parseHead_encHead 6 t hwf.1 _
      have h2 : parseItem fuel (encItem x ++ r) = some (x, r) :=
        ih x hwf.2 (by omega) r
      simp [parseItem, parseStep, encItem, hp, h2]
    | null =>
      simp [parseItem, parseStep, encItem, parseHead]

theorem encHead_len_pos (maj n : Nat) : 1 ≤ (encHead maj n).length := by
  unfold encHead
  split_ifs <;> simp

theorem encItem_len_pos (x : Cbor) : 1 ≤ (encItem x).length := by
  cases x <;>
    simp only [encItem, List.length_append, List.length_cons, List.length_nil] <;>
    first
      | exact le_add_right (encHead_len_pos _ _)
      | exact encHead_len_pos _ _
      | omega

mutual

theorem depth_le_encLen (x : Cbor) : depth x ≤ (encItem x).length := by
  cases x with
  | arr xs =>
    have h := depthList_le_encLen xs
    have h1 := encHead_len_pos 4 xs.length
    simp only [depth, encItem, List.length_append]
    omega
  | map xs =>
    have h := depthPairs_le_encLen xs
    have h1 := encHead_len_pos 5 xs.length
    simp only [depth, encItem, List.length_append]
    omega
  | tag t x =>
    have h := depth_le_encLen x
    have h1 := encHead_len_pos 6 t
    simp only [depth, encItem, List.length_append]
    omega
  | uint n => simpa [depth] using encItem_len_pos (.uint n)
  | nint n => simpa [depth] using encItem_len_pos (.nint n)
  | bstr b => simpa [depth] using encItem_len_pos (.bstr b)
  | tstr b => simpa [depth] using encItem_len_pos (.tstr b)
  | null => simp [depth, encItem]

theorem depthList_le_encLen (xs : List Cbor) : depthList xs ≤ (encList xs).length := by
  cases xs with
  | nil => simp [depthList, encList]
  | cons x xs =>
    have h1 := depth_le_encLen x
    have h2 := depthList_le_encLen xs
    simp only [depthList, encList, List.length_append]
    omega

theorem depthPairs_le_encLen (xs : List (Cbor × Cbor)) :
    depthPairs xs ≤ (encPairs xs).length := by
  cases xs with
  | nil => simp [depthPairs, encPairs]
  | cons kv xs =>
    obtain ⟨k, v⟩ := kv
    have h1 := depth_le_encLen k
    have h2 := depth_le_encLen v
    have h3 := depthPairs_le_encLen xs
    simp only [depthPairs, encPairs, List.length_append]
    omega

end

/-- Round trip at the top level: parsing an encoded well-formed item with
the fuel the decoder uses (input length + 1) returns the item and consumes
the whole input. -/
theorem parse_encItem (x : Cbor) (hwf : wfItem x = true) :
    parseItem ((encItem x).length + 1) (encItem x) = some (x, []) := by
  have h := parse_enc_fuel ((encItem x).length + 1) x hwf
    (lt_of_le_of_lt (depth_le_encLen x) (Nat.lt_succ_self _)) []
  simpa using h

theorem cborKey_intToCbor (i : Int) : cborKey (intToCbor i) = some i := by
  unfold intToCbor
  split_ifs with h
  · simp [cborKey, Int.toNat_of_nonneg h]
  · have h2 : (0 : Int) ≤ -(i + 1) := by omega
    simp only [cborKey, Option.some.injEq]
    rw [Int.toNat_of_nonneg h2]
    omega

theorem cborToHVal_hvalToCbor (v : HVal) (hv : validVal v = true) :
    cborToHVal (hvalToCbor v) = v := by
  cases v with
  | int i =>
    simp only [hvalToCbor]
    unfold intToCbor
    split_ifs with h
    · simp [cborToHVal, Int.toNat_of_nonneg h]
    · have h2 : (0 : Int) ≤ -(i + 1) := by omega
      simp only [cborToHVal, HVal.int.injEq]
      rw [Int.toNat_of_nonneg h2]
      omega
  | str b => simp [hvalToCbor, cborToHVal]
  | data b => simp [hvalToCbor, cborToHVal]
  | cbor c =>
    simp only [validVal, Bool.and_eq_true, Bool.not_eq_true'] at hv
    cases c <;> simp_all [hvalToCbor, cborToHVal, scalarItem]

theorem pairEntry_entryPair (prot : Bool) (e : HdrEntry)
    (hv : validEntry e = true) (hp : e.prot = prot) :
    pairEntry prot (entryPair e) = some e := by
  obtain ⟨k, p, v⟩ := e
  simp only [validEntry, Bool.and_eq_true] at hv
  subst hp
  simp [entryPair, pairEntry, cborKey_intToCbor, cborToHVal_hvalToCbor v hv.2]

theorem parseBucketPairs_map (prot : Bool) (es : List HdrEntry)
    (hv : validBucket es = true) (hp : ∀ e ∈ es, e.prot = prot) :
    parseBucketPairs prot (es.map entryPair) = some es := by
  induction es with
  | nil => simp [parseBucketPairs]
  | cons e es ih =>
    simp only [validBucket, List.all_cons, Bool.and_eq_true] at hv
    have h1 := pairEntry_entryPair prot e hv.1 (hp e (List.mem_cons_self e es))
    have h2 := ih hv.2 (fun x hx => hp x (List.mem_cons_of_mem e hx))
    simp [parseBucketPairs, h1, h2]

theorem wfItem_intToCbor (i : Int) (hi : int32ok i = true) :
    wfItem (intToCbor i) = true := by
  simp only [int32ok, decide_eq_true_eq] at hi
  unfold intToCbor
  split_ifs with h
  · simp only [wfItem, decide_eq_true_eq, U64]
    omega
  · simp only [wfItem, decide_eq_true_eq, U64]
    omega

theorem wfItem_hvalToCbor (v : HVal) (hv : validVal v = true) :
    wfItem (hvalToCbor v) = true := by
  cases v with
  | int i => exact wfItem_intToCbor i hv
  | str b =>
    simp only [validVal] at hv
    simpa [hvalToCbor, wfItem] using hv
  | data b =>
    simp only [validVal] at hv
    simpa [hvalToCbor, wfItem] using hv
  | cbor c =>
    simp only [validVal, Bool.and_eq_true] at hv
    simpa [hvalToCbor] using hv.1

theorem wfPairs_entryPairs (es : List HdrEntry) (hv : validBucket es = true) :
    wfPairs (es.map entryPair) = true := by
  induction es with
  | nil => simp [wfPairs]
  | cons e es ih =>
    simp only [validBucket, List.all_cons, Bool.and_eq_true] at hv
    have h1 : validEntry e = true := hv.1
    simp only [validEntry, Bool.and_eq_true] at h1
    simp only [List.map_cons, wfPairs, entryPair, Bool.and_eq_true]
    exact ⟨⟨wfItem_intToCbor e.key h1.1, wfItem_hvalToCbor e.val h1.2⟩, ih hv.2⟩

theorem validBucket_protOf (es : List HdrEntry) (hv : validBucket es = true) :
    validBucket (protOf es) = true := by
  simp only [validBucket, List.all_eq_true] at hv ⊢
  intro e he
  exact hv e (List.mem_of_mem_filter he)

theorem validBucket_unprotOf (es : List HdrEntry) (hv : validBucket es = true) :
    validBucket (unprotOf es) = true := by
  simp only [validBucket, List.all_eq_true] at hv ⊢
  intro e he
  exact hv e (List.mem_of_mem_filter he)

theorem protOf_mem_prot (es : List HdrEntry) : ∀ e ∈ protOf es, e.prot = true := by
  intro e he
  have := List.of_mem_filter he
  simpa using this

theorem unprotOf_mem_unprot (es : List HdrEntry) : ∀ e ∈ unprotOf es, e.prot = false := by
  intro e he
  have := List.of_mem_filter he
  simpa using this

/-- First-match lookup: the scan returns the first entry whose key
matches, in insertion order. -/
theorem find_first_match (l1 l2 : List HdrEntry) (e : HdrEntry) (k : Int)
    (he : e.key = k) (hl1 : ∀ x ∈ l1, x.key ≠ k) :
    cose_hdr_get (l1 ++ e :: l2) k = some e := by
  induction l1 with
  | nil =>
    simp only [List.nil_append, cose_hdr_get]
    rw [List.find?_cons_of_pos]
    simp [he]
  | cons x xs ih =>
    have hx : x.key ≠ k := hl1 x (List.mem_cons_self x xs)
    simp only [List.cons_append, cose_hdr_get] at ih ⊢
    rw [List.find?_cons_of_neg]
    · exact ih (fun y hy => hl1 y (List.mem_cons_of_mem x hy))
    · simp [hx]

/-- C3: `cose_sign_add_signer` appends a signature sub-object bound to
the key and returns the assigned index; it fails with CapacityExceeded
when `num_sigs == COSE_SIGNATURES_MAX`, leaving the object (hence
`num_sigs`) unchanged, and fails with InvalidParam on a Sign1 object
that already has its one signer (stated for configurations where the
capacity case does not coincide, i.e. `COSE_SIGNATURES_MAX ≠ 1`). -/
theorem add_signer_spec (caps : Caps) (s : SignObj) (key : KeyObj)
    (hlen : s.sigs.length = caps.sigMax) :
    (s.numSigs = caps.sigMax →
      cose_sign_add_signer caps s key = (.error .capacityExceeded, s)) ∧
    (s.sign1 = true → s.numSigs = 1 → caps.sigMax ≠ 1 →
      cose_sign_add_signer caps s key = (.error .invalidParam, s)) ∧
    (s.numSigs < caps.sigMax → (s.sign1 = true → s.numSigs ≠ 1) →
      (cose_sign_add_signer caps s key).1 = .ok s.numSigs ∧
      (cose_sign_add_signer caps s key).2.numSigs = s.numSigs + 1 ∧
      ((cose_sign_add_signer caps s key).2.sigs.getD s.numSigs emptySlot).signer =
        some key) := by
  refine ⟨?_, ?_, ?_⟩
  · intro h
    simp [cose_sign_add_signer, h]
  · intro h1 h2 h3
    have hne : (1 : Nat) ≠ caps.sigMax := fun hh => h3 hh.symm
    simp [cose_sign_add_signer, h1, h2, hne]
  · intro h1 h2
    have hne : ¬(s.numSigs = caps.sigMax) := by omega
    have hb : (s.sign1 && s.numSigs == 1) = false := by
      cases hs : s.sign1
      · simp
      · simp only [Bool.true_and, beq_eq_false_iff_ne]
        exact h2 hs
    have hlt : s.numSigs < s.sigs.length := by omega
    simp [cose_sign_add_signer, hne, hb, List.getD, List.getElem?_set_self hlt]

theorem add_signer_spec_witness :
    cose_sign_add_signer witCaps witFull witKey = (.error .capacityExceeded, witFull) ∧
    cose_sign_add_signer witCaps witSign1 witKey = (.error .invalidParam, witSign1) ∧
    (cose_sign_add_signer witCaps witEmpty witKey).1 = .ok 0 :=
  ⟨(add_signer_spec witCaps witFull witKey rfl).1 rfl,
    (add_signer_spec witCaps witSign1 witKey rfl).2.1 rfl rfl (by decide),
    ((add_signer_spec witCaps witEmpty witKey rfl).2.2 (by decide)
      (fun h => absurd h (by decide))).1⟩

/-- C4: the signature-scoped header add enforces `COSE_SIGN_HDR_MAX`,
not the declared `COSE_SIG_HDR_MAX` capacity of `sigs[idx].hdrs`: on a
bucket already at its declared capacity the add still succeeds and the
occupancy exceeds the declared capacity (an out-of-bounds write in the
C array). -/
theorem sig_hdr_capacity_violation :
    (cose_sign_sig_add_hdr_value c4caps c4sign 0 2 false 7).1 = .ok () ∧
    ((cose_sign_sig_add_hdr_value c4caps c4sign 0 2 false 7).2.sigs.getD 0
      emptySlot).hdrs.length = 2 ∧
    c4caps.sigHdrMax = 1 :=
  ⟨rfl, rfl, rfl⟩

/-- C6: `cose_sign_verify` with identical arguments returns identical
results and does not mutate the Sign object: the post-call state equals
the pre-call state, and a repeated call on that state gives the same
result-state pair. -/
theorem verify_pure (bkv : Int → KeyObj → List Nat → List Nat → Bool)
    (s : SignObj) (key : KeyObj) (idx len : Nat) :
    (cose_sign_verifyS bkv s key idx len).2 = s ∧
    cose_sign_verifyS bkv ((cose_sign_verifyS bkv s key idx len).2) key idx len =
      cose_sign_verifyS bkv s key idx len :=
  ⟨rfl, rfl⟩

/-- C8: the body-bucket add does not reject a key already present (the
duplicate is appended in insertion order), and lookup is a first-match
ordered scan, unaffected by the appended duplicate. -/
theorem duplicate_key_add (caps : Caps) (s : SignObj) (k : Int) (prot : Bool)
    (v : Int) (_hdup : ∃ e ∈ s.hdrs, e.key = k)
    (hroom : s.hdrs.length < caps.signHdrMax) :
    cose_sign_add_hdr_value caps s k prot v =
      (.ok (), {s with hdrs := s.hdrs ++ [⟨k, prot, .int v⟩]}) ∧
    (∀ l1 e l2, s.hdrs = l1 ++ e :: l2 → e.key = k → (∀ x ∈ l1, x.key ≠ k) →
      cose_hdr_get (s.hdrs ++ [⟨k, prot, .int v⟩]) k = some e) := by
  constructor
  · simp [cose_sign_add_hdr_value, cose_hdr_add_hdr_value, cose_hdr_add, hroom]
  · intro l1 e l2 hsplit he hl1
    rw [hsplit, List.append_assoc, List.cons_append]
    exact find_first_match l1 (l2 ++ [⟨k, prot, .int v⟩]) e k he hl1

theorem duplicate_key_add_witness :
    cose_sign_add_hdr_value witCaps witDup 7 false 2 =
      (.ok (), {witDup with hdrs := witDup.hdrs ++ [⟨7, false, .int 2⟩]}) ∧
    cose_hdr_get (witDup.hdrs ++ [⟨7, false, .int 2⟩]) 7 = some ⟨7, false, .int 1⟩ :=
  ⟨(duplicate_key_add witCaps witDup 7 false 2
      ⟨⟨7, false, .int 1⟩, List.mem_singleton_self _, rfl⟩ (by decide)).1,
    (duplicate_key_add witCaps witDup 7 false 2
      ⟨⟨7, false, .int 1⟩, List.mem_singleton_self _, rfl⟩ (by decide)).2
      [] ⟨7, false, .int 1⟩ [] rfl rfl (by intro x hx; cases hx)⟩

/-- C9: every signature-scoped header add validates the index only
against the compile-time `COSE_SIGNATURES_MAX`: `idx ≥ max` is rejected
with InvalidParam leaving the object unchanged, while `idx < max` is
accepted (the add proceeds on slot `idx`) even when `idx ≥ num_sigs`. -/
theorem sig_add_idx_validation (caps : Caps) (s : SignObj) (idx : Nat)
    (k : Int) (prot : Bool) (v : Int) (str0 d0 : List Nat) (c0 : Cbor) :
    (caps.sigMax ≤ idx →
      cose_sign_sig_add_hdr_value caps s idx k prot v = (.error .invalidParam, s) ∧
      cose_sign_sig_add_hdr_string caps s idx k prot str0 = (.error .invalidParam, s) ∧
      cose_sign_sig_add_hdr_data caps s idx k prot d0 = (.error .invalidParam, s) ∧
      cose_sign_sig_add_hdr_cbor caps s idx k prot c0 = (.error .invalidParam, s)) ∧
    (idx < caps.sigMax → s.numSigs ≤ idx →
      (s.sigs.getD idx emptySlot).hdrs.length < caps.signHdrMax →
      (cose_sign_sig_add_hdr_value caps s idx k prot v).1 = .ok () ∧
      (cose_sign_sig_add_hdr_string caps s idx k prot str0).1 = .ok () ∧
      (cose_sign_sig_add_hdr_data caps s idx k prot d0).1 = .ok () ∧
      (cose_sign_sig_add_hdr_cbor caps s idx k prot c0).1 = .ok ()) := by
  constructor
  · intro h
    refine ⟨?_, ?_, ?_, ?_⟩ <;>
      simp [cose_sign_sig_add_hdr_value, cose_sign_sig_add_hdr_string,
        cose_sign_sig_add_hdr_data, cose_sign_sig_add_hdr_cbor, h]
  · intro h1 _ h3
    have hn : ¬(caps.sigMax ≤ idx) := Nat.not_le.mpr h1
    simp only [List.getD, List.get?_eq_getElem?] at h3
    refine ⟨?_, ?_, ?_, ?_⟩ <;>
      simp [cose_sign_sig_add_hdr_value, cose_sign_sig_add_hdr_string,
        cose_sign_sig_add_hdr_data, cose_sign_sig_add_hdr_cbor, hn,
        cose_hdr_add_hdr_value, cose_hdr_add_hdr_string,
        cose_hdr_add_hdr_data, cose_hdr_add_hdr_cbor, cose_hdr_add, h3]

theorem sig_add_idx_validation_witness :
    cose_sign_sig_add_hdr_value witCaps witEmpty 2 1 true 5 =
      (.error .invalidParam, witEmpty) ∧
    (cose_sign_sig_add_hdr_value witCaps witEmpty 1 1 true 5).1 = .ok () :=
  ⟨((sig_add_idx_validation witCaps witEmpty 2 1 true 5 [] [] .null).1
      (by decide)).1,
    ((sig_add_idx_validation witCaps witEmpty 1 1 true 5 [] [] .null).2
      (by decide) (by decide) (by decide)).1⟩

theorem find?_eq_head?_filter (p : HdrEntry → Bool) (b : List HdrEntry) :
    b.find? p = (b.filter p).head? := by
  induction b with
  | nil => simp
  | cons x xs ih =>
    cases hx : p x
    · rw [List.find?_cons_of_neg _ (by simp [hx]), List.filter_cons_of_neg (by simp [hx])]
      exact ih
    · rw [List.find?_cons_of_pos _ hx, List.filter_cons_of_pos hx]
      simp

theorem updateFirst_ct_filter (v : Int) : ∀ b : List HdrEntry, ∀ e0 : HdrEntry,
    b.filter (fun e => e.key == COSE_HDR_CONTENT_TYPE) = [e0] →
    (updateFirst b COSE_HDR_CONTENT_TYPE (fun e => ⟨e.key, true, .int v⟩)).filter
        (fun e => e.key == COSE_HDR_CONTENT_TYPE) =
      [⟨COSE_HDR_CONTENT_TYPE, true, .int v⟩] := by
  intro b
  induction b with
  | nil => intro e0 h; simp at h
  | cons x xs ih =>
    intro e0 h
    cases hx : (x.key == COSE_HDR_CONTENT_TYPE)
    · simp only [List.filter_cons, hx, Bool.false_eq_true, if_false] at h
      rw [updateFirst, if_neg (by simp [hx])]
      simp only [List.filter_cons, hx, Bool.false_eq_true, if_false]
      exact ih e0 h
    · simp only [List.filter_cons, hx, if_true] at h
      have hkey : x.key = COSE_HDR_CONTENT_TYPE := by simpa using hx
      obtain ⟨rfl, hrest⟩ := List.cons_eq_cons.mp h
      rw [updateFirst, if_pos hx]
      simp only [List.filter_cons, hkey, beq_self_eq_true, if_true, hrest]

theorem updateFirst_ct_self (v : Int) : ∀ b : List HdrEntry,
    b.filter (fun e => e.key == COSE_HDR_CONTENT_TYPE) =
      [⟨COSE_HDR_CONTENT_TYPE, true, .int v⟩] →
    updateFirst b COSE_HDR_CONTENT_TYPE (fun e => ⟨e.key, true, .int v⟩) = b := by
  intro b
  induction b with
  | nil => intro h; simp at h
  | cons x xs ih =>
    intro h
    cases hx : (x.key == COSE_HDR_CONTENT_TYPE)
    · simp only [List.filter_cons, hx, Bool.false_eq_true, if_false] at h
      rw [updateFirst, if_neg (by simp [hx]), ih h]
    · simp only [List.filter_cons, hx, if_true] at h
      obtain ⟨hx0, _⟩ := List.cons_eq_cons.mp h
      rw [updateFirst, if_pos hx, hx0]

/-- One `cose_sign_set_ct` call on an object with at most one
content-type header (and room when it has none) succeeds and leaves the
body bucket with exactly one content-type header, protected, of int
type, holding the value. -/
theorem setCt_step (caps : Caps) (s : SignObj) (v : Int)
    (hpre : (ctEntries s).length ≤ 1)
    (hcap : (ctEntries s).length = 1 ∨ s.hdrs.length < caps.signHdrMax) :
    (cose_sign_set_ct caps s v).1 = .ok () ∧
    ctEntries (cose_sign_set_ct caps s v).2 =
      [⟨COSE_HDR_CONTENT_TYPE, true, .int v⟩] := by
  unfold ctEntries at hpre hcap ⊢
  cases hflt : s.hdrs.filter (fun e => e.key == COSE_HDR_CONTENT_TYPE) with
  | nil =>
    have hnone : cose_hdr_get s.hdrs COSE_HDR_CONTENT_TYPE = none := by
      rw [cose_hdr_get, find?_eq_head?_filter, hflt]
      rfl
    have hroom : s.hdrs.length < caps.signHdrMax := by
      rcases hcap with hcap | hcap
      · rw [hflt] at hcap; simp at hcap
      · exact hcap
    have hres : cose_sign_set_ct caps s v =
        (.ok (), {s with hdrs := s.hdrs ++ [⟨COSE_HDR_CONTENT_TYPE, true, .int v⟩]}) := by
      rw [cose_sign_set_ct, hnone]
      simp [cose_sign_add_hdr_value, cose_hdr_add_hdr_value, cose_hdr_add, hroom]
    rw [hres]
    refine ⟨rfl, ?_⟩
    show (s.hdrs ++ [(⟨COSE_HDR_CONTENT_TYPE, true, .int v⟩ : HdrEntry)]).filter
      (fun e => e.key == COSE_HDR_CONTENT_TYPE) = _
    rw [List.filter_append, hflt]
    simp
  | cons e0 rest =>
    have hrest : rest = [] := by
      rw [hflt] at hpre
      simp at hpre
      simpa [List.length_eq_zero] using hpre
    subst hrest
    have hsome : cose_hdr_get s.hdrs COSE_HDR_CONTENT_TYPE = some e0 := by
      rw [cose_hdr_get, find?_eq_head?_filter, hflt]
      rfl
    rw [cose_sign_set_ct, hsome]
    exact ⟨rfl, updateFirst_ct_filter v s.hdrs e0 hflt⟩

/-- C10 counterexample: on an object holding two content-type headers,
`cose_sign_set_ct` updates only the first in place, so the call leaves
two content-type headers, not exactly one holding the last value as the
claim states for every Sign object. -/
theorem set_ct_counterexample :
    (cose_sign_set_ct ⟨1, 4, 1⟩ c10sign 5).1 = .ok () ∧
    (ctEntries (cose_sign_set_ct ⟨1, 4, 1⟩ c10sign 5).2).length = 2 ∧
    ¬((ctEntries (cose_sign_set_ct ⟨1, 4, 1⟩ c10sign 5).2).length = 1) :=
  ⟨rfl, rfl, by decide⟩

/-- C10 (amended): `cose_sign_set_ct` never adds a second content-type
entry: on every Sign object whose body bucket holds at most one
content-type header — with room for one when it holds none — any
nonempty sequence of calls leaves exactly one content-type header,
protected and of int type, holding the last value; calls return
success, and a second call with the same value leaves the object
unchanged (calling twice equals calling once). -/
theorem set_ct_spec (caps : Caps) (s : SignObj) (vs : List Int)
    (hpre : (ctEntries s).length ≤ 1)
    (hcap : (ctEntries s).length = 1 ∨ s.hdrs.length < caps.signHdrMax)
    (hne : vs ≠ []) :
    ctEntries (setCtFold caps s vs) = [⟨COSE_HDR_CONTENT_TYPE, true, .int (vs.getLast hne)⟩] ∧
    (∀ v, (cose_sign_set_ct caps s v).1 = .ok ()) ∧
    (∀ v, cose_sign_set_ct caps ((cose_sign_set_ct caps s v).2) v =
      (.ok (), (cose_sign_set_ct caps s v).2)) := by
  refine ⟨?_, fun v => (setCt_step caps s v hpre hcap).1, ?_⟩
  · induction vs generalizing s with
    | nil => exact absurd rfl hne
    | cons v vs ih =>
      cases vs with
      | nil =>
        simpa [setCtFold] using (setCt_step caps s v hpre hcap).2
      | cons w ws =>
        have hstep := setCt_step caps s v hpre hcap
        have hpre2 : (ctEntries (cose_sign_set_ct caps s v).2).length ≤ 1 := by
          rw [hstep.2]; simp
        have hcap2 : (ctEntries (cose_sign_set_ct caps s v).2).length = 1 ∨
            (cose_sign_set_ct caps s v).2.hdrs.length < caps.signHdrMax := by
          left; rw [hstep.2]; simp
        have hprev := ih (cose_sign_set_ct caps s v).2 hpre2 hcap2 (by simp)
        rw [setCtFold, List.foldl_cons]
        show ctEntries (setCtFold caps (cose_sign_set_ct caps s v).2 (w :: ws)) = _
        rw [hprev]
        rfl
  · intro v
    have hstep := setCt_step caps s v hpre hcap
    have hsome : cose_hdr_get (cose_sign_set_ct caps s v).2.hdrs COSE_HDR_CONTENT_TYPE =
        some ⟨COSE_HDR_CONTENT_TYPE, true, .int v⟩ := by
      rw [cose_hdr_get, find?_eq_head?_filter]
      have h2 := hstep.2
      rw [ctEntries] at h2
      rw [h2]
      rfl
    have hupd := updateFirst_ct_self v (cose_sign_set_ct caps s v).2.hdrs hstep.2
    rw [cose_sign_set_ct, hsome, hupd]

theorem decodeFourth_bad_shape (caps : Caps) (payload : List Nat)
    (untagged : Bool) (pb : List Nat) (hs : List HdrEntry) (d : Cbor)
    (h1 : ∀ b, d ≠ Cbor.bstr b) (h2 : ∀ l, d ≠ Cbor.arr l) :
    decodeFourth caps payload untagged pb hs d = .error .parseError := by
  cases d with
  | bstr b => exact absurd rfl (h1 b)
  | arr l => exact absurd rfl (h2 l)
  | uint n => rfl
  | nint n => rfl
  | tstr b => rfl
  | map m => rfl
  | tag t x => rfl
  | null => rfl

/-- C5: when the decoded input's outer CBOR array (after the optional
tag) has an arity other than 4, or a wrong element type in one of the
four positions — a non-byte-string where a byte string is expected, a
non-map in the unprotected position, a bad payload position, or a
fourth position that is neither byte string nor array — the decode
fails with ParseError and the caller's Sign object is returned
unchanged (no partial population). -/
theorem decode_malformed (caps : Caps) (s : SignObj) (bs : List Nat)
    (item : Cbor) (untagged : Bool) (xs : List Cbor)
    (hp : parseItem (bs.length + 1) bs = some (item, []))
    (hst : stripTag item = some (untagged, .arr xs))
    (hbad : xs.length ≠ 4 ∨
      (∀ pb up pl fourth, xs = [pb, up, pl, fourth] →
        asBstr pb = none ∨ asMap up = none ∨ payloadOf pl = none ∨
        ((∀ b, fourth ≠ Cbor.bstr b) ∧ (∀ l, fourth ≠ Cbor.arr l)))) :
    cose_sign_decode caps s bs = (.error .parseError, s) := by
  suffices hdi : decodeInner caps untagged (Cbor.arr xs) = .error .parseError by
    simp [cose_sign_decode, cose_sign_decode_core, hp, hst, hdi]
  rcases xs with _ | ⟨a, _ | ⟨b, _ | ⟨c, _ | ⟨d, _ | ⟨e, rest⟩⟩⟩⟩⟩
  · rfl
  · rfl
  · rfl
  · rfl
  · rcases hbad with hlen | hsh
    · simp at hlen
    · rcases hsh a b c d rfl with h | h | h | ⟨h1, h2⟩
      · cases hb : asMap b <;> cases hc : payloadOf c <;>
          simp [decodeInner, h, hb, hc]
      · cases ha : asBstr a
        · simp [decodeInner, ha]
        · simp [decodeInner, ha, h]
      · cases ha : asBstr a
        · simp [decodeInner, ha]
        · cases hb : asMap b
          · simp [decodeInner, ha, hb]
          · simp [decodeInner, ha, hb, h]
      · cases ha : asBstr a with
        | none => simp [decodeInner, ha]
        | some pbb =>
          cases hb : asMap b with
          | none => simp [decodeInner, ha, hb]
          | some upp =>
            cases hc : payloadOf c with
            | none => simp [decodeInner, ha, hb, hc]
            | some payload =>
              cases hparse : parseItem (pbb.length + 1) pbb with
              | none => simp [decodeInner, ha, hb, hc, hparse]
              | some xr =>
                obtain ⟨x, r⟩ := xr
                cases x <;> cases r <;>
                    simp [decodeInner, ha, hb, hc, hparse] <;>
                  rename_i pp
                case map.nil =>
                  cases hbp : parseBucketPairs true pp with
                  | none => simp [hbp]
                  | some bp =>
                    cases hbu : parseBucketPairs false upp with
                    | none => simp [hbp, hbu]
                    | some bu =>
                      simp [hbp, hbu, decodeFourth_bad_shape caps payload
                        untagged pbb (bp ++ bu) d h1 h2]
  · rfl

theorem decode_malformed_witness :
    cose_sign_decode witCaps witEmpty badArity = (.error .parseError, witEmpty) :=
  decode_malformed witCaps witEmpty badArity (.arr [.uint 1, .uint 2, .uint 3])
    true [.uint 1, .uint 2, .uint 3] rfl rfl (.inl (by decide))

/-- C7: exact buffer boundaries.  For encode: with the minimum required
size (scratch for the largest to-be-signed structure and the envelope)
the call succeeds, one byte less fails with BufferTooSmall.  For verify:
with the to-be-signed structure's exact size the call succeeds (when
the backend validates), one byte less fails with BufferTooSmall. -/
theorem buffer_exact_boundary
    (bk : Int → KeyObj → List Nat → Option (List Nat))
    (s s2 : SignObj) (bytes : List Nat)
    (henc : cose_sign_encode_core bk s = .ok (s2, bytes))
    (bkv : Int → KeyObj → List Nat → List Nat → Bool)
    (sv : SignObj) (key : KeyObj) (idx : Nat)
    (hidx : idx < sv.numSigs)
    (hver : bkv key.alg key (sigStructBytes sv (sv.sigs.getD idx emptySlot))
      (sv.sigs.getD idx emptySlot).signature = true) :
    (cose_sign_encode bk s (encodeRequired s2 bytes) = .ok (s2, bytes) ∧
      cose_sign_encode bk s (encodeRequired s2 bytes - 1) = .error .bufferTooSmall) ∧
    (cose_sign_verify bkv sv key idx
        (sigStructBytes sv (sv.sigs.getD idx emptySlot)).length = .ok () ∧
      cose_sign_verify bkv sv key idx
        ((sigStructBytes sv (sv.sigs.getD idx emptySlot)).length - 1) =
        .error .bufferTooSmall) := by
  have hbytes : 1 ≤ bytes.length := by
    unfold cose_sign_encode_core at henc
    cases hss : signSlots bk (preSign s) ((preSign s).sigs.take (preSign s).numSigs) with
    | error e => rw [hss] at henc; cases henc
    | ok slots =>
      rw [hss] at henc
      simp only [Except.ok.injEq, Prod.mk.injEq] at henc
      rw [← henc.2]
      exact encItem_len_pos _
  have hreq : 1 ≤ encodeRequired s2 bytes :=
    le_trans hbytes (le_max_right _ _)
  constructor
  · constructor
    · rw [cose_sign_encode, henc]
      simp
    · rw [cose_sign_encode, henc]
      have : encodeRequired s2 bytes - 1 < encodeRequired s2 bytes := by omega
      simp [this]
  · have hnle : ¬(sv.numSigs ≤ idx) := Nat.not_le.mpr hidx
    have htlen : 1 ≤ (sigStructBytes sv (sv.sigs.getD idx emptySlot)).length :=
      encItem_len_pos _
    constructor
    · rw [cose_sign_verify]
      simp only [List.getD, List.get?_eq_getElem?, sigStructBytes] at hver
      simp [hnle, hver, sigStructBytes]
    · rw [cose_sign_verify]
      have hlt : (sigStructBytes sv (sv.sigs.getD idx emptySlot)).length - 1 <
          (sigStructBytes sv (sv.sigs.getD idx emptySlot)).length := by omega
      simp only [if_neg hnle]
      rw [if_pos (by simpa [sigStructBytes] using hlt)]

theorem buffer_exact_boundary_witness :
    cose_sign_encode witBk witEnc (encodeRequired witPair.1 witPair.2) =
      .ok (witPair.1, witPair.2) ∧
    cose_sign_encode witBk witEnc (encodeRequired witPair.1 witPair.2 - 1) =
      .error .bufferTooSmall ∧
    cose_sign_verify witBkv witEnc witKey 0
      (sigStructBytes witEnc (witEnc.sigs.getD 0 emptySlot)).length = .ok () ∧
    cose_sign_verify witBkv witEnc witKey 0
      ((sigStructBytes witEnc (witEnc.sigs.getD 0 emptySlot)).length - 1) =
      .error .bufferTooSmall :=
  ⟨(buffer_exact_boundary witBk witEnc witPair.1 witPair.2 rfl witBkv witEnc
      witKey 0 (by decide) rfl).1.1,
    (buffer_exact_boundary witBk witEnc witPair.1 witPair.2 rfl witBkv witEnc
      witKey 0 (by decide) rfl).1.2,
    (buffer_exact_boundary witBk witEnc witPair.1 witPair.2 rfl witBkv witEnc
      witKey 0 (by decide) rfl).2.1,
    (buffer_exact_boundary witBk witEnc witPair.1 witPair.2 rfl witBkv witEnc
      witKey 0 (by decide) rfl).2.2⟩

theorem set_ct_spec_witness :
    ctEntries (setCtFold witCaps witEmpty [1, 2, 7]) = [⟨COSE_HDR_CONTENT_TYPE, true, .int 7⟩] ∧
    (cose_sign_set_ct witCaps witEmpty 1).1 = .ok () :=
  ⟨(set_ct_spec witCaps witEmpty [1, 2, 7] (by decide) (.inr (by decide))
      (by decide)).1,
    (set_ct_spec witCaps witEmpty [1, 2, 7] (by decide) (.inr (by decide))
      (by decide)).2.1 1⟩

/-- C1 (amended: the kid exposed at signer index 0 is the 19-byte ASCII
string "Something@somewhere"; the claim's stated length of 20 counts the
C array's NUL terminator): decoding the 311-byte tagged test vector
succeeds for every configuration with at least one signer slot, one
body header slot and two signature header slots, exposing the protected
content-type header 42 and the kid; `cose_sign_verify` at index 0
reduces to the external EdDSA backend's answer on the rebuilt
to-be-signed bytes and the stored signature: it succeeds whenever the
backend accepts them under the matching public key, and fails with
VerificationFailed for any key the backend rejects. -/
theorem suite_vector_spec (a b c : Nat)
    (bkv : Int → KeyObj → List Nat → List Nat → Bool) :
    cose_sign_decode_core ⟨a + 1, b + 1, c + 2⟩ suiteBytes = .ok (suiteDecoded a) ∧
    cose_sign_get_protected (suiteDecoded a) COSE_HDR_CONTENT_TYPE =
      some ⟨COSE_HDR_CONTENT_TYPE, true, .int 42⟩ ∧
    cose_sign_get_kid (suiteDecoded a) 0 = some kidBytes ∧
    kidBytes.length = 19 ∧
    (bkv COSE_ALGO_EDDSA suiteKey suiteTbs suiteSig = true →
      cose_sign_verify bkv (suiteDecoded a) suiteKey 0 2048 = .ok ()) ∧
    (∀ key : KeyObj, bkv key.alg key suiteTbs suiteSig = false →
      cose_sign_verify bkv (suiteDecoded a) key 0 2048 = .error .verificationFailed) := by
  refine ⟨rfl, rfl, rfl, rfl, ?_, ?_⟩
  · intro hb
    have hv : cose_sign_verify bkv (suiteDecoded a) suiteKey 0 2048 =
        if bkv COSE_ALGO_EDDSA suiteKey suiteTbs suiteSig then .ok ()
        else .error .verificationFailed := rfl
    rw [hv, hb]
    rfl
  · intro key hf
    have hv : cose_sign_verify bkv (suiteDecoded a) key 0 2048 =
        if bkv key.alg key suiteTbs suiteSig then .ok ()
        else .error .verificationFailed := rfl
    rw [hv, hf]
    rfl

/-- C1 counterexample to the stated kid length: the decoded kid has
length 19, not 20 (at the concrete configuration 4/8/8). -/
theorem suite_kid_len_counterexample :
    cose_sign_decode_core ⟨4, 8, 8⟩ suiteBytes = .ok (suiteDecoded 3) ∧
    cose_sign_get_kid (suiteDecoded 3) 0 = some kidBytes ∧
    kidBytes.length = 19 ∧ ¬(kidBytes.length = 20) :=
  ⟨rfl, rfl, rfl, by decide⟩

theorem suite_vector_spec_witness :
    cose_sign_verify bkvWit (suiteDecoded 0) suiteKey 0 2048 = .ok () ∧
    cose_sign_verify bkvWit (suiteDecoded 0) otherKey 0 2048 =
      .error .verificationFailed :=
  ⟨(suite_vector_spec 0 0 0 bkvWit).2.2.2.2.1 rfl,
    (suite_vector_spec 0 0 0 bkvWit).2.2.2.2.2 otherKey rfl⟩

theorem length_prot_add_unprot (es : List HdrEntry) :
    (protOf es).length + (unprotOf es).length = es.length := by
  induction es with
  | nil => rfl
  | cons e es ih =>
    cases he : e.prot <;>
      simp only [protOf, unprotOf, List.filter_cons, he, Bool.not_false,
        Bool.not_true, if_true, if_false, Bool.false_eq_true, Bool.true_eq_false,
        List.length_cons] at ih ⊢ <;>
      omega

theorem wf_bucket_mapItem (es : List HdrEntry) (hv : validBucket es = true)
    (hlen : es.length < U64) : wfItem (.map (es.map entryPair)) = true := by
  simp only [wfItem, Bool.and_eq_true, decide_eq_true_eq]
  exact ⟨by simpa using hlen, wfPairs_entryPairs es hv⟩

theorem parse_serProt (es : List HdrEntry) (hv : validBucket es = true)
    (hlen : es.length < U64) :
    parseItem ((serProt es).length + 1) (serProt es) =
      some (.map ((protOf es).map entryPair), []) := by
  have hwf : wfItem (.map ((protOf es).map entryPair)) = true := by
    refine wf_bucket_mapItem (protOf es) (validBucket_protOf es hv) ?_
    have := List.length_filter_le (fun e => e.prot) es
    simp only [protOf]
    omega
  exact parse_encItem (.map ((protOf es).map entryPair)) hwf

theorem parse_buckets (es : List HdrEntry) (hv : validBucket es = true) :
    parseBucketPairs true ((protOf es).map entryPair) = some (protOf es) ∧
    parseBucketPairs false ((unprotOf es).map entryPair) = some (unprotOf es) :=
  ⟨parseBucketPairs_map true (protOf es) (validBucket_protOf es hv)
      (protOf_mem_prot es),
    parseBucketPairs_map false (unprotOf es) (validBucket_unprotOf es hv)
      (unprotOf_mem_unprot es)⟩

theorem signSlots_props (bk : Int → KeyObj → List Nat → Option (List Nat))
    (hbk : ∀ a k m sg, bk a k m = some sg → sg.length < U64) (s1 : SignObj) :
    ∀ slots out, signSlots bk s1 slots = .ok out →
      out.length = slots.length ∧
      ∀ i, i < slots.length →
        (out.getD i emptySlot).hdrs = (slots.getD i emptySlot).hdrs ∧
        (out.getD i emptySlot).hdrProt = serProt ((slots.getD i emptySlot).hdrs) ∧
        (out.getD i emptySlot).signature.length < U64 := by
  intro slots
  induction slots with
  | nil =>
    intro out h
    simp only [signSlots, Except.ok.injEq] at h
    subst h
    exact ⟨rfl, fun i hi => absurd hi (Nat.not_lt_zero i)⟩
  | cons slot rest ih =>
    intro out h
    simp only [signSlots] at h
    cases hsg : slot.signer with
    | none =>
      simp only [hsg] at h
      exact Except.noConfusion h
    | some key =>
      simp only [hsg] at h
      cases hbke : bk key.alg key (encItem (sigStructItem s1 (serProt slot.hdrs))) with
      | none =>
        simp only [hbke] at h
        exact Except.noConfusion h
      | some sg =>
        simp only [hbke] at h
        cases hrest : signSlots bk s1 rest with
        | error e =>
          simp only [hrest] at h
          exact Except.noConfusion h
        | ok rs =>
          simp only [hrest, Except.ok.injEq] at h
          subst h
          obtain ⟨hlen, hprops⟩ := ih rs hrest
          refine ⟨by simpa using hlen, ?_⟩
          intro i hi
          cases i with
          | zero =>
            refine ⟨rfl, rfl, ?_⟩
            exact hbk _ _ _ _ hbke
          | succ j =>
            simp only [List.getD_cons_succ]
            exact hprops j (by simpa using hi)

theorem decodeSlots_map (caps : Caps) : ∀ slots : List SigSlot,
    (∀ slot ∈ slots, decSlotOk caps slot) →
    decodeSlots caps (slots.map sigTriple) = .ok (slots.map reslot) := by
  intro slots
  induction slots with
  | nil => intro _; rfl
  | cons slot rest ih =>
    intro hall
    obtain ⟨hvb, hcap, hlen, hhp, hsg⟩ := hall slot (List.mem_cons_self slot rest)
    have hparse : parseItem (slot.hdrProt.length + 1) slot.hdrProt =
        some (.map ((protOf slot.hdrs).map entryPair), []) := by
      rw [hhp]
      exact parse_serProt slot.hdrs hvb hlen
    have hb := parse_buckets slot.hdrs hvb
    have hfit : ¬(caps.sigHdrMax < (protOf slot.hdrs ++ unprotOf slot.hdrs).length) := by
      have := length_prot_add_unprot slot.hdrs
      simp only [List.length_append]
      omega
    simp only [List.map_cons, sigTriple, unprotMap, decodeSlots, hparse,
      hb.1, hb.2, if_neg hfit, ih (fun x hx => hall x (List.mem_cons_of_mem slot hx))]
    rfl

theorem wf_sigTriple (slot : SigSlot) (h : slotWf slot) :
    wfItem (sigTriple slot) = true := by
  obtain ⟨h1, h2, h3, h4⟩ := h
  have hm : wfItem (unprotMap slot.hdrs) = true := by
    refine wf_bucket_mapItem (unprotOf slot.hdrs) (validBucket_unprotOf _ h1) ?_
    have := List.length_filter_le (fun e => !e.prot) slot.hdrs
    simp only [unprotOf]
    omega
  simp only [sigTriple, wfItem, wfList, Bool.and_eq_true, decide_eq_true_eq]
  refine ⟨by simp [U64], by simpa using h3, ⟨?_, by simpa using h4, trivial⟩⟩
  simp only [wfItem, Bool.and_eq_true, decide_eq_true_eq, List.length_map,
    unprotMap] at hm
  simpa using hm

theorem wfList_map_sigTriple : ∀ slots : List SigSlot,
    (∀ slot ∈ slots, slotWf slot) → wfList (slots.map sigTriple) = true := by
  intro slots
  induction slots with
  | nil => intro _; rfl
  | cons slot rest ih =>
    intro hall
    simp only [List.map_cons, wfList, Bool.and_eq_true]
    exact ⟨wf_sigTriple slot (hall slot (List.mem_cons_self slot rest)),
      ih (fun x hx => hall x (List.mem_cons_of_mem slot hx))⟩

theorem wf_envBody_sign (payload : List Nat) (bodyHdrs : List HdrEntry)
    (slots : List SigSlot) (hpay : payload.length < U64)
    (hv : validBucket bodyHdrs = true) (hblen : bodyHdrs.length < U64)
    (hsp : (serProt bodyHdrs).length < U64) (hslen : slots.length < U64)
    (hslots : ∀ slot ∈ slots, slotWf slot) :
    wfItem (.arr [.bstr (serProt bodyHdrs), unprotMap bodyHdrs, .bstr payload,
      .arr (slots.map sigTriple)]) = true := by
  have hm : wfItem (unprotMap bodyHdrs) = true := by
    refine wf_bucket_mapItem (unprotOf bodyHdrs) (validBucket_unprotOf _ hv) ?_
    have := List.length_filter_le (fun e => !e.prot) bodyHdrs
    simp only [unprotOf]
    omega
  simp only [wfItem, wfList, Bool.and_eq_true, decide_eq_true_eq]
  refine ⟨by simp [U64], by simpa using hsp, ?_, by simpa using hpay, ⟨?_, ?_⟩, trivial⟩
  · simp only [wfItem, Bool.and_eq_true, decide_eq_true_eq, List.length_map,
      unprotMap] at hm
    simpa using hm
  · simpa using hslen
  · exact wfList_map_sigTriple slots hslots

theorem wf_envBody_sign1 (payload : List Nat) (bodyHdrs : List HdrEntry)
    (sg : List Nat) (hpay : payload.length < U64)
    (hv : validBucket bodyHdrs = true) (hblen : bodyHdrs.length < U64)
    (hsp : (serProt bodyHdrs).length < U64) (hsg : sg.length < U64) :
    wfItem (.arr [.bstr (serProt bodyHdrs), unprotMap bodyHdrs, .bstr payload,
      .bstr sg]) = true := by
  have hm : wfItem (unprotMap bodyHdrs) = true := by
    refine wf_bucket_mapItem (unprotOf bodyHdrs) (validBucket_unprotOf _ hv) ?_
    have := List.length_filter_le (fun e => !e.prot) bodyHdrs
    simp only [unprotOf]
    omega
  simp only [wfItem, wfList, Bool.and_eq_true, decide_eq_true_eq]
  refine ⟨by simp [U64], by simpa using hsp, ?_, by simpa using hpay,
    by simpa using hsg, trivial⟩
  simp only [wfItem, Bool.and_eq_true, decide_eq_true_eq, List.length_map,
    unprotMap] at hm
  simpa using hm

theorem decodeInner_sign (caps : Caps) (untagged : Bool) (payload : List Nat)
    (bodyHdrs : List HdrEntry) (slots : List SigSlot)
    (hv : validBucket bodyHdrs = true) (hblen : bodyHdrs.length < U64)
    (hbcap : bodyHdrs.length ≤ caps.signHdrMax)
    (hscap : slots.length ≤ caps.sigMax)
    (hslots : ∀ slot ∈ slots, decSlotOk caps slot) :
    decodeInner caps untagged (.arr [.bstr (serProt bodyHdrs), unprotMap bodyHdrs,
      .bstr payload, .arr (slots.map sigTriple)]) =
    .ok ⟨payload, [], serProt bodyHdrs, false, untagged, slots.length,
      protOf bodyHdrs ++ unprotOf bodyHdrs,
      slots.map reslot ++ List.replicate (caps.sigMax - slots.length) emptySlot⟩ := by
  obtain ⟨hb1, hb2⟩ := parse_buckets bodyHdrs hv
  have h1 : ¬(caps.signHdrMax < (protOf bodyHdrs ++ unprotOf bodyHdrs).length) := by
    have := length_prot_add_unprot bodyHdrs
    simp only [List.length_append]
    omega
  have h2 : ¬(caps.sigMax < (slots.map sigTriple).length) := by
    simpa using hscap
  have h2b : ¬(caps.sigMax < slots.length) := by omega
  simp only [decodeInner, asBstr, asMap, payloadOf, unprotMap,
    parse_serProt bodyHdrs hv hblen, hb1, hb2, decodeFourth, List.length_map,
    if_neg h1, if_neg h2, if_neg h2b,
    decodeSlots_map caps slots hslots]

theorem decodeInner_sign1 (caps : Caps) (untagged : Bool) (payload : List Nat)
    (bodyHdrs : List HdrEntry) (sg : List Nat)
    (hv : validBucket bodyHdrs = true) (hblen : bodyHdrs.length < U64)
    (hbcap : bodyHdrs.length ≤ caps.signHdrMax) (hsig : 1 ≤ caps.sigMax) :
    decodeInner caps untagged (.arr [.bstr (serProt bodyHdrs), unprotMap bodyHdrs,
      .bstr payload, .bstr sg]) =
    .ok ⟨payload, [], serProt bodyHdrs, true, untagged, 1,
      protOf bodyHdrs ++ unprotOf bodyHdrs,
      ⟨serProt bodyHdrs, sg, none, []⟩ :: List.replicate (caps.sigMax - 1) emptySlot⟩ := by
  obtain ⟨hb1, hb2⟩ := parse_buckets bodyHdrs hv
  have h1 : ¬(caps.signHdrMax < (protOf bodyHdrs ++ unprotOf bodyHdrs).length) := by
    have := length_prot_add_unprot bodyHdrs
    simp only [List.length_append]
    omega
  have h2 : ¬(caps.sigMax < 1) := by omega
  simp only [decodeInner, asBstr, asMap, payloadOf, unprotMap,
    parse_serProt bodyHdrs hv hblen, hb1, hb2, decodeFourth, if_neg h1, if_neg h2]

theorem stripTag_envItem (s : SignObj) :
    stripTag (envItem s) = some (s.untagged, envBody s) := by
  rw [envItem]
  cases hu : s.untagged
  · cases hs : s.sign1 <;> simp [stripTag]
  · cases hs : s.sign1 <;> simp [envBody, hs, stripTag]

theorem getD_append_left (l1 l2 : List SigSlot) (i : Nat) (h : i < l1.length)
    (d : SigSlot) : (l1 ++ l2).getD i d = l1.getD i d := by
  simp [List.getD, List.getElem?_append, h]

theorem getD_take_lt (l : List SigSlot) (n i : Nat) (h : i < n) (d : SigSlot) :
    (l.take n).getD i d = l.getD i d := by
  simp [List.getD, List.getElem?_take, h]

theorem getD_map_reslot (l : List SigSlot) (i : Nat) (h : i < l.length)
    (d d' : SigSlot) : (l.map reslot).getD i d = reslot (l.getD i d') := by
  rw [List.getD_eq_getElem _ _ (by simpa using h), List.getD_eq_getElem _ _ h,
    List.getElem_map]

/-- C2: encode-then-decode round trip. For every validly constructed
Sign object (Sign1 with its merged single signer, or Sign with any
number of signers up to `COSE_SIGNATURES_MAX`), a successful
`cose_sign_encode` followed by `cose_sign_decode` of the produced bytes
yields an object whose payload, header entries (protected-first, each
entry byte-identical), and per-signer signature bytes equal the encoded
object's. -/
theorem encode_decode_roundtrip (caps : Caps)
    (bk : Int → KeyObj → List Nat → Option (List Nat))
    (hbk : ∀ a k m sg, bk a k m = some sg → sg.length < U64)
    (s : SignObj) (hv : validSign caps s = true)
    (s0 : SignObj) (len : Nat) (s2 : SignObj) (bytes : List Nat)
    (henc : cose_sign_encode bk s len = .ok (s2, bytes)) :
    ∃ d : SignObj, cose_sign_decode caps s0 bytes = (.ok (), d) ∧
      d.payload = s.payload ∧ d.sign1 = s.sign1 ∧ d.untagged = s.untagged ∧
      d.numSigs = s.numSigs ∧
      d.hdrs = protOf s.hdrs ++ unprotOf s.hdrs ∧
      (∀ i, i < s.numSigs →
        (d.sigs.getD i emptySlot).signature = (s2.sigs.getD i emptySlot).signature ∧
        (d.sigs.getD i emptySlot).hdrs =
          protOf ((s.sigs.getD i emptySlot).hdrs) ++
            unprotOf ((s.sigs.getD i emptySlot).hdrs)) := by
  simp only [validSign, Bool.and_eq_true, decide_eq_true_eq] at hv
  obtain ⟨⟨⟨⟨⟨⟨⟨⟨⟨⟨hsigslen, hvb⟩, hbcap⟩, hpay⟩, hsp⟩, hns⟩, hcm⟩, hshm⟩,
    hsihm⟩, hall⟩, hs1if⟩ := hv
  rw [cose_sign_encode] at henc
  cases hc : cose_sign_encode_core bk s with
  | error e => simp [hc] at henc
  | ok p =>
    obtain ⟨p1, p2⟩ := p
    simp only [hc] at henc
    by_cases hl : len < encodeRequired p1 p2
    · simp [if_pos hl] at henc
    · simp only [if_neg hl, Except.ok.injEq, Prod.mk.injEq] at henc
      obtain ⟨rfl, rfl⟩ := henc
      simp only [cose_sign_encode_core] at hc
      cases hss : signSlots bk (preSign s)
          ((preSign s).sigs.take (preSign s).numSigs) with
      | error e => simp [hss] at hc
      | ok slots =>
        simp only [hss, Except.ok.injEq, Prod.mk.injEq] at hc
        obtain ⟨rfl, rfl⟩ := hc
        have htake_len : ((preSign s).sigs.take (preSign s).numSigs).length =
            s.numSigs := by
          show (s.sigs.take s.numSigs).length = s.numSigs
          rw [List.length_take]
          omega
        obtain ⟨hslen, hsprops⟩ := signSlots_props bk hbk (preSign s) _ slots hss
        have hslots_len : slots.length = s.numSigs := by rw [hslen, htake_len]
        have hslotfact : ∀ i, i < s.numSigs →
            (slots.getD i emptySlot).hdrs = (s.sigs.getD i emptySlot).hdrs ∧
            (slots.getD i emptySlot).hdrProt =
              serProt ((s.sigs.getD i emptySlot).hdrs) ∧
            (slots.getD i emptySlot).signature.length < U64 ∧
            validSlot caps (s.sigs.getD i emptySlot) = true := by
          intro i hi
          have hi2 : i < ((preSign s).sigs.take (preSign s).numSigs).length := by
            rw [htake_len]; exact hi
          have h3 := hsprops i hi2
          have htk : ((preSign s).sigs.take (preSign s).numSigs).getD i emptySlot =
              s.sigs.getD i emptySlot := by
            show (s.sigs.take s.numSigs).getD i emptySlot = s.sigs.getD i emptySlot
            exact getD_take_lt s.sigs s.numSigs i hi emptySlot
          have hmem : s.sigs.getD i emptySlot ∈ s.sigs.take s.numSigs := by
            rw [← htk]
            show (s.sigs.take s.numSigs).getD i emptySlot ∈ s.sigs.take s.numSigs
            rw [List.getD_eq_getElem _ _ (by rw [List.length_take]; omega)]
            exact List.getElem_mem _
          have hval := List.all_eq_true.mp hall _ hmem
          rw [htk] at h3
          exact ⟨h3.1, h3.2.1, h3.2.2, hval⟩
        have hperslot : ∀ slot ∈ slots, slotWf slot ∧ decSlotOk caps slot := by
          intro slot hmem
          obtain ⟨i, hi, heq⟩ := List.getElem_of_mem hmem
          have hi' : i < s.numSigs := hslots_len ▸ hi
          have hgd : slots.getD i emptySlot = slot := by
            rw [List.getD_eq_getElem _ _ hi]; exact heq
          obtain ⟨h1, h2, h3, h4⟩ := hslotfact i hi'
          rw [hgd] at h1 h2 h3
          simp only [validSlot, Bool.and_eq_true, decide_eq_true_eq] at h4
          obtain ⟨⟨⟨hv1, hv2⟩, _⟩, hv4⟩ := h4
          have hvb' : validBucket slot.hdrs = true := by rw [h1]; exact hv1
          have hlen' : slot.hdrs.length < U64 := by rw [h1]; omega
          have hlencap : slot.hdrs.length ≤ caps.sigHdrMax := by rw [h1]; exact hv2
          have hhp : slot.hdrProt = serProt slot.hdrs := by rw [h2, h1]
          have hhplen : slot.hdrProt.length < U64 := by rw [h2]; exact hv4
          exact ⟨⟨hvb', hlen', hhplen, h3⟩, ⟨hvb', hlencap, hlen', hhp, h3⟩⟩
        cases hsg1 : s.sign1 with
        | false =>
          have htk2 : (postSign s slots).sigs.take (postSign s slots).numSigs =
              slots := by
            show (slots ++ (preSign s).sigs.drop (preSign s).numSigs).take
              s.numSigs = slots
            rw [← hslots_len]
            exact List.take_left _ _
          have hcond : ¬((postSign s slots).sign1 = true) := by
            show ¬(s.sign1 = true)
            simp [hsg1]
          have henvb : envBody (postSign s slots) =
              .arr [.bstr (serProt s.hdrs), unprotMap s.hdrs, .bstr s.payload,
                .arr (slots.map sigTriple)] := by
            rw [envBody, if_neg hcond, htk2]
            simp [postSign, preSign, bodyProtBytes, hsg1]
          have hwfb : wfItem (envBody (postSign s slots)) = true := by
            rw [henvb]
            exact wf_envBody_sign s.payload s.hdrs slots hpay hvb (by omega) hsp
              (by omega) (fun slot hm => (hperslot slot hm).1)
          have hwfe : wfItem (envItem (postSign s slots)) = true := by
            rw [envItem]
            have hsg1' : (postSign s slots).sign1 = false := by
              simp [postSign, preSign, hsg1]
            cases hu : (postSign s slots).untagged
            · simp [wfItem, hsg1', hwfb, U64]
            · simpa using hwfb
          have hparse : parseItem ((encItem (envItem (postSign s slots))).length + 1)
              (encItem (envItem (postSign s slots))) =
              some (envItem (postSign s slots), []) :=
            parse_encItem _ hwfe
          have huntag : (postSign s slots).untagged = s.untagged := rfl
          have hdec : cose_sign_decode_core caps
              (encItem (envItem (postSign s slots))) =
              decodeInner caps s.untagged (envBody (postSign s slots)) := by
            simp only [cose_sign_decode_core, hparse, stripTag_envItem, huntag]
          have hdi := decodeInner_sign caps s.untagged s.payload s.hdrs slots hvb
            (by omega) hbcap (by omega) (fun slot hm => (hperslot slot hm).2)
          rw [henvb] at hdec
          rw [hdi] at hdec
          refine ⟨⟨s.payload, [], serProt s.hdrs, false, s.untagged, slots.length,
            protOf s.hdrs ++ unprotOf s.hdrs, slots.map reslot ++
              List.replicate (caps.sigMax - slots.length) emptySlot⟩,
            ?_, rfl, rfl, rfl, hslots_len, rfl, ?_⟩
          · simp [cose_sign_decode, hdec]
          · intro i hi
            have hilt : i < slots.length := by omega
            have hd1 : ((slots.map reslot ++
                List.replicate (caps.sigMax - slots.length) emptySlot).getD i
                emptySlot) = reslot (slots.getD i emptySlot) := by
              rw [getD_append_left _ _ i (by simpa using hilt),
                getD_map_reslot slots i hilt]
            have hd2 : ((postSign s slots).sigs.getD i emptySlot) =
                slots.getD i emptySlot := by
              show ((slots ++ (preSign s).sigs.drop (preSign s).numSigs).getD i
                emptySlot) = slots.getD i emptySlot
              exact getD_append_left _ _ i hilt emptySlot
            obtain ⟨hf1, _, _, _⟩ := hslotfact i hi
            constructor
            · show ((slots.map reslot ++
                List.replicate (caps.sigMax - slots.length) emptySlot).getD i
                  emptySlot).signature = _
              rw [hd1, hd2]
              rfl
            · show ((slots.map reslot ++
                List.replicate (caps.sigMax - slots.length) emptySlot).getD i
                  emptySlot).hdrs = _
              rw [hd1]
              show protOf ((slots.getD i emptySlot).hdrs) ++
                unprotOf ((slots.getD i emptySlot).hdrs) = _
              rw [hf1]
        | true =>
          rw [hsg1] at hs1if
          simp only [if_true, Bool.and_eq_true, beq_iff_eq,
            List.isEmpty_iff] at hs1if
          obtain ⟨hnum1, hemp⟩ := hs1if
          have h0lt : 0 < slots.length := by omega
          obtain ⟨hf1, hf2, hf3, hf4⟩ := hslotfact 0 (by omega)
          have hs0hdrs : (slots.getD 0 emptySlot).hdrs = [] := by rw [hf1, hemp]
          have hpost0 : ((postSign s slots).sigs.getD 0 emptySlot) =
              slots.getD 0 emptySlot := by
            show ((slots ++ (preSign s).sigs.drop (preSign s).numSigs).getD 0
              emptySlot) = slots.getD 0 emptySlot
            exact getD_append_left _ _ 0 h0lt emptySlot
          have hcond : (postSign s slots).sign1 = true := by
            show s.sign1 = true
            exact hsg1
          have henvb : envBody (postSign s slots) =
              .arr [.bstr (serProt s.hdrs), unprotMap s.hdrs, .bstr s.payload,
                .bstr ((slots.getD 0 emptySlot).signature)] := by
            have hemp2 : (s.sigs[0]?.getD emptySlot).hdrs = ([] : List HdrEntry) := by
              simpa [List.getD] using hemp
            rw [envBody, if_pos hcond, hpost0, hs0hdrs, List.append_nil]
            simp [postSign, preSign, bodyProtBytes, hsg1, hemp2]
          have hwfb : wfItem (envBody (postSign s slots)) = true := by
            rw [henvb]
            exact wf_envBody_sign1 s.payload s.hdrs
              ((slots.getD 0 emptySlot).signature) hpay hvb (by omega) hsp hf3
          have hwfe : wfItem (envItem (postSign s slots)) = true := by
            rw [envItem]
            have hsg1' : (postSign s slots).sign1 = true := by
              simp [postSign, preSign, hsg1]
            cases hu : (postSign s slots).untagged
            · simp [wfItem, hsg1', hwfb, U64]
            · simpa using hwfb
          have hparse : parseItem ((encItem (envItem (postSign s slots))).length + 1)
              (encItem (envItem (postSign s slots))) =
              some (envItem (postSign s slots), []) :=
            parse_encItem _ hwfe
          have huntag : (postSign s slots).untagged = s.untagged := rfl
          have hdec : cose_sign_decode_core caps
              (encItem (envItem (postSign s slots))) =
              decodeInner caps s.untagged (envBody (postSign s slots)) := by
            simp only [cose_sign_decode_core, hparse, stripTag_envItem, huntag]
          have hdi := decodeInner_sign1 caps s.untagged s.payload s.hdrs
            ((slots.getD 0 emptySlot).signature) hvb (by omega) hbcap (by omega)
          rw [henvb] at hdec
          rw [hdi] at hdec
          refine ⟨⟨s.payload, [], serProt s.hdrs, true, s.untagged, 1,
            protOf s.hdrs ++ unprotOf s.hdrs,
            ⟨serProt s.hdrs, (slots.getD 0 emptySlot).signature, none, []⟩ ::
              List.replicate (caps.sigMax - 1) emptySlot⟩,
            ?_, rfl, rfl, rfl, hnum1.symm, rfl, ?_⟩
          · simp [cose_sign_decode, hdec]
          · intro i hi
            have hi0 : i = 0 := by omega
            subst hi0
            have hd2 : ((postSign s slots).sigs.getD 0 emptySlot) =
                slots.getD 0 emptySlot := by
              show ((slots ++ (preSign s).sigs.drop (preSign s).numSigs).getD 0
                emptySlot) = slots.getD 0 emptySlot
              exact getD_append_left _ _ 0 h0lt emptySlot
            constructor
            · show (slots.getD 0 emptySlot).signature = _
              rw [hd2]
            · show ([] : List HdrEntry) = _
              rw [hemp]
              rfl

theorem encode_decode_roundtrip_witness :
    ∃ d : SignObj,
      cose_sign_decode witCaps (cose_sign_init witCaps false false) witPair.2 =
        (.ok (), d) ∧
      d.payload = witEnc.payload ∧ d.sign1 = witEnc.sign1 ∧
      d.untagged = witEnc.untagged ∧ d.numSigs = witEnc.numSigs ∧
      d.hdrs = protOf witEnc.hdrs ++ unprotOf witEnc.hdrs ∧
      (∀ i, i < witEnc.numSigs →
        (d.sigs.getD i emptySlot).signature =
          (witPair.1.sigs.getD i emptySlot).signature ∧
        (d.sigs.getD i emptySlot).hdrs =
          protOf ((witEnc.sigs.getD i emptySlot).hdrs) ++
            unprotOf ((witEnc.sigs.getD i emptySlot).hdrs)) :=
  encode_decode_roundtrip witCaps witBk
    (by intro a k m sg h; cases h; decide) witEnc rfl
    (cose_sign_init witCaps false false)
    (encodeRequired witPair.1 witPair.2) witPair.1 witPair.2 rfl

end LibCose
